import Mathlib

/-
Verification development for the SQL semantic analyzer of pg-magic
(src/lib/createTypeGenerator.ts and src/lib/utilities).  The analyzer is a
pure tree recursion over PostgreSQL parse-tree nodes; we embed the node
vocabulary (src/lib/pgsql-parser.d.ts) as inductive types, TypeScript
objects with insertion order as association lists, JavaScript `undefined`
holes as `Option`, and thrown `Error`s as `Except Err`.  Places where the
TypeScript would crash with a runtime `TypeError` (property access on
`undefined`) are modelled as `Err.typeError`; both kinds of exception are
caught at the same driver boundary (`parseQuery`).
-/

namespace PgMagic

/-- Column record from src/lib/types.ts: `{ nullable: boolean; type: string }`. -/
structure Column where
  nullable : Bool
  type : String
deriving DecidableEq

/-- Table record from src/lib/types.ts: an ordered mapping of column names to
columns (association list in insertion order) plus a table-level nullable flag. -/
structure Table where
  columns : List (String × Column)
  nullable : Bool
deriving DecidableEq

/-- `Tables` from src/lib/types.ts: `Record<string, Table>`.  The value side is
`Option Table` because `parseDeleteStmt`/`parseInsertStmt`/`parseUpdateStmt`
can assign an `undefined` value under a key (`clonedContext.tables[tableName] =
table` where the catalog lookup may miss). -/
abbrev Tables := List (String × Option Table)

/-- `TablesBySchema` from src/lib/types.ts.  No `undefined` values are ever
stored here, so the value side is a plain table map. -/
abbrev TablesBySchema := List (String × List (String × Table))

/-- The analysis `Context` from src/lib/types.ts, restricted to its data
fields.  The two function-valued fields (`formatFunc`, `mapType`) are passed
explicitly to the formatting functions below: they are only read by
`formatExpression`/`format`, which the driver always calls with the original
context, and the JSON-based `clone` drops function properties anyway. -/
structure Context where
  tables : Tables
  defaultSchema : String
  fallbackType : String
  tablesBySchema : TablesBySchema
deriving DecidableEq

/-- `ParsedExpression` from src/lib/types.ts.  Fields in declaration order:
`constantValue?`, `name?`, `nullable`, `set?`, `type`, `types?`.  Recursive
through `set` and `types`, hence an inductive rather than a structure. -/
inductive ParsedExpression : Type where
  | mk
    (constantValue : Option String)
    (name : Option String)
    (nullable : Bool)
    (set : Option (List ParsedExpression))
    (type : String)
    (types : Option (List ParsedExpression)) : ParsedExpression

def ParsedExpression.constantValue : ParsedExpression → Option String
  | .mk c _ _ _ _ _ => c

def ParsedExpression.name : ParsedExpression → Option String
  | .mk _ n _ _ _ _ => n

def ParsedExpression.nullable : ParsedExpression → Bool
  | .mk _ _ nb _ _ _ => nb

def ParsedExpression.set : ParsedExpression → Option (List ParsedExpression)
  | .mk _ _ _ s _ _ => s

def ParsedExpression.type : ParsedExpression → String
  | .mk _ _ _ _ t _ => t

def ParsedExpression.types : ParsedExpression → Option (List ParsedExpression)
  | .mk _ _ _ _ _ ts => ts

/-- Object spread `{...p, nullable := b}` as used by `AEXPR_NULLIF` and
`EXPR_SUBLINK`: every other field, `set`/`types`/`constantValue`/`name`
included, is preserved. -/
def ParsedExpression.withNullable : ParsedExpression → Bool → ParsedExpression
  | .mk c n _ s t ts, b => .mk c n b s t ts

/-- Object spread `{...p, name := a}` as used by `parseTargetList`. -/
def ParsedExpression.withName : ParsedExpression → Option String → ParsedExpression
  | .mk c _ nb s t ts, a => .mk c a nb s t ts

/-- Shorthand for the ubiquitous `{ nullable, type }` result object. -/
def mkPE (nullable : Bool) (type : String) : ParsedExpression :=
  .mk none none nullable none type none

/-- `ParsedTable` from src/lib/types.ts.  The source field `alias` is spelled
`alias_` because `alias` is reserved in Lean. -/
structure ParsedTable where
  alias_ : String
  columns : List (String × Column)
  nullable : Bool
deriving DecidableEq

/-- Errors thrown by the analyzer (§7 of the spec).  `typeError` stands for a
JavaScript runtime `TypeError` from a property access on `undefined`; like the
explicit `throw new Error(...)` cases it is caught per query in `parseQuery`. -/
inductive Err : Type where
  | unsupported (msg : String)
  | unknownTable (name : String)
  | unknownColumn (name : String)
  | missingAlias
  | typeError (msg : String)
deriving DecidableEq

/-- Ordered-map read: JavaScript `object[key]`, `undefined` becoming `none`
(first entry with the key wins, as association lists never hold a duplicate
key here). -/
def getKey {α : Type} : List (String × α) → String → Option α
  | [], _ => none
  | p :: rest, k => if p.1 == k then some p.2 else getKey rest k

/-- Ordered-map write: JavaScript `object[key] = v` / `Map.set`.  An existing
key keeps its original position; a new key is appended. -/
def setKey {α : Type} (l : List (String × α)) (k : String) (v : α) : List (String × α) :=
  if l.any (fun p => p.1 == k) then
    l.map (fun p => if p.1 == k then (k, v) else p)
  else
    l ++ [(k, v)]

/-- `unique` from src/lib/utilities: `Array.from(new Set(array))`, keeping the
first occurrence of each element in order. -/
def unique {α : Type} [DecidableEq α] (l : List α) : List α :=
  l.foldl (fun acc x => if acc.contains x then acc else acc ++ [x]) []

/-- `clone` from src/lib/utilities: `JSON.parse(JSON.stringify(object))`.  On
the data fields of `Context` this is a value copy, except that JSON
serialization drops object entries whose value is `undefined` (our `none`
entries in `tables`). -/
def clone (ctx : Context) : Context :=
  ⟨ctx.tables.filter (fun p => p.2.isSome), ctx.defaultSchema, ctx.fallbackType,
    ctx.tablesBySchema⟩

/-- `isNumber` from src/lib/utilities (isNumber.ts). -/
def isNumber (typeName : String) : Bool :=
  ["bigserial", "decimal", "float2", "float4", "float8", "int2", "int4", "int8",
    "serial", "serial2", "serial4", "serial8", "smallserial"].contains typeName

/-- `isText` from src/lib/utilities (isText.ts). -/
def isText (typeName : String) : Bool :=
  ["bpchar", "citext", "text", "varchar"].contains typeName

/-- Modelled from the spec: the utility `isArray` is imported by
createTypeGenerator.ts but its file is not under src/.  §3: "Arrays are
encoded by a trailing `[]`" (the test is phrased over the character list so
that it evaluates inside the kernel). -/
def isArray (typeName : String) : Bool :=
  typeName.data.reverse.take 2 == [']', '[']

/-- Modelled from the spec: the utility `getElementType` is not under src/.
§3: "the element type is recovered by stripping" the trailing `[]`. -/
def getElementType (typeName : String) : String :=
  if isArray typeName then ⟨typeName.data.dropLast.dropLast⟩ else typeName

/-- Modelled from the spec: the utility `isJson` is not under src/.
§4.1: json family is `json`, `jsonb`. -/
def isJson (typeName : String) : Bool :=
  ["json", "jsonb"].contains typeName

/-- Modelled from the spec: the utility `isBit` is not under src/.
§4.1: bit family is `bit`, `varbit`. -/
def isBit (typeName : String) : Bool :=
  ["bit", "varbit"].contains typeName

/-- Modelled from the spec: the utility `isTime` is not under src/.
§4.1: time family is `time`, `timetz`. -/
def isTime (typeName : String) : Bool :=
  ["time", "timetz"].contains typeName

/-- Modelled from the spec: the utility `isTimestamp` is not under src/.
§4.1: timestamp family is `timestamp`, `timestamptz`. -/
def isTimestamp (typeName : String) : Bool :=
  ["timestamp", "timestamptz"].contains typeName

/- ### Parse-tree node vocabulary (src/lib/pgsql-parser.d.ts) -/

/-- The payload of an `A_Const` node: `Integer | Float | Null | String`. -/
inductive AConstVal : Type where
  | Integer (ival : Int)
  | Float (str : String)
  | Null
  | StringVal (str : String)
deriving DecidableEq

inductive AExprKind : Type where
  | AEXPR_OP
  | AEXPR_OP_ANY
  | AEXPR_OP_ALL
  | AEXPR_IN
  | AEXPR_DISTINCT
  | AEXPR_NOT_DISTINCT
  | AEXPR_NULLIF
  | AEXPR_LIKE
  | AEXPR_ILIKE
  | AEXPR_SIMILAR
  | AEXPR_BETWEEN
  | AEXPR_NOT_BETWEEN
  | AEXPR_BETWEEN_SYM
  | AEXPR_NOT_BETWEEN_SYM
deriving DecidableEq

inductive BoolExprType : Type where
  | AND_EXPR
  | OR_EXPR
  | NOT_EXPR
deriving DecidableEq

inductive BoolTestType : Type where
  | IS_TRUE
  | IS_NOT_TRUE
  | IS_FALSE
  | IS_NOT_FALSE
  | IS_UNKNOWN
  | IS_NOT_UNKNOWN
deriving DecidableEq

inductive NullTestType : Type where
  | IS_NULL
  | IS_NOT_NULL
deriving DecidableEq

inductive MinMaxOp : Type where
  | IS_GREATEST
  | IS_LEAST
deriving DecidableEq

inductive JoinType : Type where
  | JOIN_INNER
  | JOIN_LEFT
  | JOIN_FULL
  | JOIN_RIGHT
deriving DecidableEq

inductive SubLinkType : Type where
  | EXISTS_SUBLINK
  | ALL_SUBLINK
  | ANY_SUBLINK
  | ROWCOMPARE_SUBLINK
  | EXPR_SUBLINK
  | MULTIEXPR_SUBLINK
  | ARRAY_SUBLINK
deriving DecidableEq

inductive SQLValueFunctionOp : Type where
  | SVFOP_CURRENT_DATE
  | SVFOP_CURRENT_TIME
  | SVFOP_CURRENT_TIME_N
  | SVFOP_CURRENT_TIMESTAMP
  | SVFOP_CURRENT_TIMESTAMP_N
  | SVFOP_LOCALTIME
  | SVFOP_LOCALTIME_N
  | SVFOP_LOCALTIMESTAMP
  | SVFOP_LOCALTIMESTAMP_N
  | SVFOP_CURRENT_ROLE
  | SVFOP_CURRENT_USER
  | SVFOP_USER
  | SVFOP_SESSION_USER
  | SVFOP_CURRENT_CATALOG
  | SVFOP_CURRENT_SCHEMA
deriving DecidableEq

/-- `ColumnRef.fields`: `[A_Star] | [String] | [String, String] |
[String, A_Star]`.  `moreFields` stands for a runtime field list of length
greater than two (`schema.tbl.col`), which the analyzer rejects. -/
inductive ColumnRefFields : Type where
  | star
  | col (c : String)
  | tblCol (t c : String)
  | tblStar (t : String)
  | moreFields
deriving DecidableEq

/-- `Alias` from pgsql-parser.d.ts. -/
structure Alias where
  aliasname : String
  colnames : Option (List String)
deriving DecidableEq

/-- `RangeVar`'s payload (also used by Insert/Update/Delete `relation`).
The source field `alias` is spelled `alias_` (reserved word in Lean). -/
structure RangeVarData where
  alias_ : Option Alias
  relname : String
  schemaname : Option String
deriving DecidableEq

/-- `TypeName` from pgsql-parser.d.ts: `arrayBounds?: Integer[]`,
`names?: String[]`. -/
structure TypeName where
  arrayBounds : Option (List Int)
  names : Option (List String)
deriving DecidableEq

mutual

/-- `Expression` from pgsql-parser.d.ts: seventeen node kinds, exactly those
dispatched by `parseExpression`.  The source's `List` node is `ExprList`
here to avoid clashing with Lean's `List`. -/
inductive Expression : Type where
  | A_ArrayExpr (elements : List Expression)
  | A_Const (val : AConstVal)
  | A_Expr (kind : AExprKind) (name : List String) (lexpr : Option Expression)
      (rexpr : Option Expression)
  | A_Indirection (arg : Expression) (indirection : List AIndices)
  | BoolExpr (boolop : BoolExprType) (args : List Expression)
  | BoolTest (booltesttype : BoolTestType) (arg : Expression)
  | CaseExpr (args : List CaseWhen) (defresult : Option Expression)
  | CoalesceExpr (args : List Expression)
  | ColumnRef (fields : ColumnRefFields)
  | FuncCall (funcname : List String) (args : List Expression)
  | ExprList (items : List Expression)
  | MinMaxExpr (op : MinMaxOp) (args : List Expression)
  | NullTest (nulltesttype : NullTestType) (arg : Expression)
  | ParamRef (number : Int)
  | SQLValueFunction (op : SQLValueFunctionOp)
  | SubLink (subLinkType : SubLinkType) (subselect : SelectStmt)
  | TypeCast (arg : Expression) (typeName : TypeName)

/-- `A_Indices` from pgsql-parser.d.ts: `is_slice?`, `lidx?`, `uidx?`. -/
inductive AIndices : Type where
  | mk (is_slice : Bool) (lidx : Option Expression) (uidx : Option Expression)

/-- `CaseWhen` from pgsql-parser.d.ts. -/
inductive CaseWhen : Type where
  | mk (expr : Expression) (result : Expression)

/-- `ResTarget` from pgsql-parser.d.ts (`location` omitted: never read). -/
inductive ResTarget : Type where
  | mk (name : Option String) (val : Expression)

/-- `FromItem = JoinExpr | RangeVar | RangeSubselect`. -/
inductive FromItem : Type where
  | JoinExpr (jointype : JoinType) (larg rarg : FromItem)
  | RangeSubselect (alias_ : Alias) (subquery : SelectStmt)
  | RangeVar (rv : RangeVarData)

/-- `SelectStmt`'s payload: the three-way union from pgsql-parser.d.ts,
discriminated in the source by `"valuesLists" in stmt` / `"larg" in stmt`. -/
inductive SelectStmt : Type where
  | simple (targetList : Option (List ResTarget)) (fromClause : Option (List FromItem))
      (withClause : Option WithClause)
  | setOp (larg rarg : SelectStmt)
  | values (valuesLists : List (List Expression))

/-- `CommonTableExpr` from pgsql-parser.d.ts. -/
inductive CommonTableExpr : Type where
  | mk (ctename : String) (aliascolnames : Option (List String)) (ctequery : Stmt)

/-- `WithClause` from pgsql-parser.d.ts. -/
inductive WithClause : Type where
  | mk (ctes : List CommonTableExpr)

/-- `Stmt = DeleteStmt | InsertStmt | SelectStmt | UpdateStmt`. -/
inductive Stmt : Type where
  | DeleteStmt (relation : RangeVarData) (returningList : Option (List ResTarget))
  | InsertStmt (relation : RangeVarData) (returningList : Option (List ResTarget))
  | SelectStmt (s : SelectStmt)
  | UpdateStmt (relation : RangeVarData) (returningList : Option (List ResTarget))

end

/-- `RawStmt` from pgsql-parser.d.ts. -/
structure RawStmt where
  stmt : Stmt

/- ### Non-recursive expression rules -/

/-- `parseAConst` from createTypeGenerator.ts.  Integer constants render with
`toString(10)`, string constants are double-quoted, `Null` is nullable. -/
def parseAConst (val : AConstVal) : Except Err ParsedExpression :=
  match val with
  | .Integer ival => pure ⟨some (toString ival), none, false, none, "int4", none⟩
  | .Float str => pure ⟨some str, none, false, none, "float4", none⟩
  | .Null => pure (mkPE true "null")
  | .StringVal str => pure ⟨some ("\"" ++ str ++ "\""), none, false, none, "text", none⟩

/-- `parseBoolTest` from createTypeGenerator.ts. -/
def parseBoolTest : ParsedExpression := mkPE false "bool"

/-- `parseNullTest` from createTypeGenerator.ts. -/
def parseNullTest : ParsedExpression := mkPE false "bool"

/-- `parseParamRef` from createTypeGenerator.ts. -/
def parseParamRef : ParsedExpression := mkPE true "any"

/-- `parseSQLValueFunction` from createTypeGenerator.ts. -/
def parseSQLValueFunction (op : SQLValueFunctionOp) : ParsedExpression :=
  match op with
  | .SVFOP_CURRENT_DATE => mkPE false "date"
  | .SVFOP_CURRENT_TIME | .SVFOP_CURRENT_TIME_N
  | .SVFOP_LOCALTIME | .SVFOP_LOCALTIME_N => mkPE false "timetz"
  | .SVFOP_CURRENT_TIMESTAMP | .SVFOP_CURRENT_TIMESTAMP_N
  | .SVFOP_LOCALTIMESTAMP | .SVFOP_LOCALTIMESTAMP_N => mkPE false "timestamptz"
  | .SVFOP_CURRENT_ROLE | .SVFOP_CURRENT_USER | .SVFOP_USER
  | .SVFOP_SESSION_USER | .SVFOP_CURRENT_CATALOG
  | .SVFOP_CURRENT_SCHEMA => mkPE false "text"

/-- `expression.lexpr ? expression.lexpr.nullable : false` for optional
operands of `A_Expr` nodes. -/
def optNullable (o : Option ParsedExpression) : Bool :=
  match o with
  | some p => p.nullable
  | none => false

/-- Property access on a possibly-undefined operand: in the TypeScript this is
an unguarded `lexpr.type`/`rexpr.nullable` that crashes when the operand is
absent. -/
def reqPE (o : Option ParsedExpression) : Except Err ParsedExpression :=
  match o with
  | some p => pure p
  | none => throw (.typeError "operand is undefined")

/-- The result-type computation of the `"+"` branch of `parseAExpr`. -/
def plusResultType (l r : ParsedExpression) : String :=
  if l.type == "date" then
    if isNumber r.type then "date"
    else if isTime r.type || r.type == "interval" then "timestamp"
    else r.type
  else if r.type == "date" then
    if isNumber l.type then "date"
    else if isTime l.type || l.type == "interval" then "timestamp"
    else r.type
  else if l.type == "interval" then
    if isTimestamp r.type || isTime r.type then r.type else r.type
  else if r.type == "interval" then
    if isTimestamp l.type || isTime l.type then l.type else r.type
  else r.type

/-- The result-type computation of the `"-"` branch of `parseAExpr`. -/
def minusResultType (l r : ParsedExpression) : String :=
  if isJson l.type then l.type
  else if l.type == "date" && r.type == "date" then "int4"
  else if l.type == "date" && isNumber r.type then "date"
  else if l.type == "date" && r.type == "interval" then "timestamp"
  else if isTime l.type && isTime r.type then "interval"
  else if isTime l.type && r.type == "interval" then l.type
  else if isTimestamp l.type && r.type == "interval" then l.type
  else if isTimestamp l.type && isTimestamp r.type then "interval"
  else r.type

/-- The `AEXPR_OP` operator switch of `parseAExpr`, applied to the already
parsed operands (the source parses `lexpr`/`rexpr` before switching on the
operator name).  Operand requirements per branch follow the source exactly:
a branch that reads `lexpr.type` or `lexpr.nullable` without a guard crashes
on an absent left operand (`reqPE`), a branch guarding with
`lexpr ? ... : false` tolerates it (`optNullable`). -/
def aexprOpResult (name : String) (lexpr rexpr : Option ParsedExpression) :
    Except Err ParsedExpression :=
  match name with
  | "+" => do
      let r ← reqPE rexpr
      pure (mkPE (optNullable lexpr || r.nullable)
        (match lexpr with
          | some l => plusResultType l r
          | none => r.type))
  | "-" => do
      let r ← reqPE rexpr
      pure (mkPE (optNullable lexpr || r.nullable)
        (match lexpr with
          | some l => minusResultType l r
          | none => r.type))
  | "*" => do
      let r ← reqPE rexpr
      let l ← reqPE lexpr
      pure (mkPE (l.nullable || r.nullable)
        (if l.type == "interval" && isNumber r.type then "interval"
         else if r.type == "interval" && isNumber l.type then "interval"
         else r.type))
  | "/" => do
      let l ← reqPE lexpr
      let r ← reqPE rexpr
      pure (mkPE (l.nullable || r.nullable)
        (if l.type == "interval" && isNumber r.type then "interval" else r.type))
  | ">>" | "<<" => do
      let l ← reqPE lexpr
      let r ← reqPE rexpr
      pure (mkPE (l.nullable || r.nullable) (if isNumber r.type then l.type else "bool"))
  | "~" => do
      let r ← reqPE rexpr
      pure (mkPE (optNullable lexpr || r.nullable)
        (if isNumber r.type || isBit r.type then r.type else "bool"))
  | "||" => do
      let l ← reqPE lexpr
      let r ← reqPE rexpr
      pure (mkPE (l.nullable || r.nullable)
        (if isArray l.type then l.type
         else if isArray r.type then r.type
         else if isText l.type then l.type
         else r.type))
  | "<" | "<=" | ">" | ">=" | "<>" | "!=" | "=" | "@>" | "<@" | "?" | "?|"
  | "?&" | "@?" | "@@" | "&&" | "&<" | "&>" | "-|-" | "~*" | "!~" | "!~*" => do
      let l ← reqPE lexpr
      let r ← reqPE rexpr
      pure (mkPE (l.nullable || r.nullable) "bool")
  | "&" | "|" | "#" | "->" | "#>" | "#-" => do
      let l ← reqPE lexpr
      let r ← reqPE rexpr
      pure (mkPE (l.nullable || r.nullable) l.type)
  | "->>" | "#>>" => do
      let l ← reqPE lexpr
      let r ← reqPE rexpr
      pure (mkPE (l.nullable || r.nullable) "text")
  | "%" | "^" | "|/" | "||/" | "@" => do
      let r ← reqPE rexpr
      pure (mkPE (optNullable lexpr || r.nullable) r.type)
  | _ => throw (.unsupported ("operator " ++ name))

/-- The unqualified-column search loop of `parseColumnRef`: walk the scoped
tables in insertion order, first match wins.  An `undefined` table value hits
`tables[tableName].columns` without an optional-chaining guard. -/
def findColumnLoop : List (String × Option Table) → String → Except Err (Option Column)
  | [], _ => pure none
  | (_, none) :: _, _ => throw (.typeError "scoped table is undefined")
  | (_, some tbl) :: rest, colName =>
      match getKey tbl.columns colName with
      | some c => pure (some c)
      | none => findColumnLoop rest colName

/-- `parseColumnRef` from createTypeGenerator.ts. -/
def parseColumnRef (fields : ColumnRefFields) (ctx : Context) : Except Err ParsedExpression :=
  match fields with
  | .moreFields =>
      throw (.unsupported "fully qualified column names")
  | .tblStar t =>
      pure ⟨none, some "",
        (((getKey ctx.tables t).join).map (fun tbl => tbl.nullable)).getD true,
        none, "any", none⟩
  | .star => pure ⟨none, some "", false, none, "any", none⟩
  | .tblCol t c =>
      match ((getKey ctx.tables t).join).bind (fun tbl => getKey tbl.columns c) with
      | some column => pure ⟨none, some c, column.nullable, none, column.type, none⟩
      | none => throw (.unknownColumn c)
  | .col c => do
      match (← findColumnLoop ctx.tables c) with
      | some column => pure ⟨none, some c, column.nullable, none, column.type, none⟩
      | none => throw (.unknownColumn c)

/-- The pure tail of `parseTypeCast`: the cast's named type (or the fallback),
the `"t"`/`"f"`-to-boolean rewrite, and the `arrayBounds` suffix.  Note the
spread drops the inner expression's `name`/`types`/`set`. -/
def parseTypeCastResult (pe : ParsedExpression) (typeName : TypeName)
    (fallbackType : String) : Except Err ParsedExpression := do
  let type ← match typeName.names with
    | none => pure fallbackType
    | some names =>
        match names.getLast? with
        | some n => pure n
        | none => throw (.typeError "empty type name list")
  if (pe.constantValue == some "\"t\"" || pe.constantValue == some "\"f\"")
      && type == "bool" then
    pure ⟨some (if pe.constantValue == some "\"t\"" then "true" else "false"),
      none, pe.nullable, none, "bool", none⟩
  else if typeName.arrayBounds.isSome then
    pure ⟨none, none, pe.nullable, none, type ++ "[]", none⟩
  else
    pure ⟨pe.constantValue, none, pe.nullable, none, type, none⟩

/-- The pure tail of `parseCaseExpr`: branch list assembly and nullability.
`results` are the parsed WHEN results, `defaultResult` the parsed ELSE. -/
def parseCaseExprResult (results : List ParsedExpression)
    (defaultResult : Option ParsedExpression) : Except Err ParsedExpression :=
  let possibleResults := match defaultResult with
    | some dr => results ++ [dr]
    | none => results
  match results with
  | [] => throw (.typeError "CASE with no WHEN branches")
  | r0 :: _ =>
      pure ⟨none, none,
        defaultResult.isNone || possibleResults.any (fun e => e.nullable),
        none, r0.type, some possibleResults⟩

/-- The pure tail of `parseCoalesceExpr`, applied to the collected branches. -/
def parseCoalesceExprResult (types : List ParsedExpression) : Except Err ParsedExpression :=
  match types with
  | [] => throw (.typeError "COALESCE with no arguments")
  | t0 :: _ =>
      pure ⟨none, none, types.all (fun t => t.nullable), none, t0.type, some types⟩

/-- The pure tail of `parseList`. -/
def parseListResult (expressions : List ParsedExpression) : Except Err ParsedExpression :=
  match expressions with
  | [] => throw (.typeError "empty List node")
  | e0 :: _ =>
      pure ⟨none, none, expressions.any (fun e => e.nullable), none, e0.type,
        some expressions⟩

/-- The pure tail of `parseMinMaxExpr`: nullable iff every argument is. -/
def parseMinMaxExprResult (types : List ParsedExpression) : Except Err ParsedExpression :=
  match types with
  | [] => throw (.typeError "empty GREATEST/LEAST")
  | t0 :: _ => pure (mkPE (types.all (fun t => t.nullable)) t0.type)

/-- The pure tail of `parseAIndirection` once the subscripted argument and the
optional slice bounds are parsed.  `lNullable`/`uNullable` are the parsed
nullability of `lidx`/`uidx` (false when absent, as in the source). -/
def parseAIndirectionResult (pe : ParsedExpression) (indirection : List AIndices)
    (lNullable uNullable : Bool) : Except Err ParsedExpression :=
  if isArray pe.type then
    if indirection.length > 1 then
      throw (.unsupported "subscript expressions for multidimensional arrays")
    else
      match indirection with
      | ⟨true, _, _⟩ :: _ => pure (mkPE (pe.nullable || lNullable || uNullable) pe.type)
      | ⟨false, _, _⟩ :: _ => pure (mkPE true (getElementType pe.type))
      | [] => throw (.typeError "empty indirection list")
  else if isJson pe.type then
    pure (mkPE true "any")
  else
    throw (.unsupported ("subscript expressions with type " ++ pe.type))

/-- `parseRangeVar` from createTypeGenerator.ts (no recursive calls): catalog
lookup under `schemaname ?? defaultSchema`, scope alias `aliasname ?? relname`. -/
def parseRangeVar (rv : RangeVarData) (parsedTables : List ParsedTable)
    (ctx : Context) (nullable : Bool) : Except Err (List ParsedTable) :=
  let table := (getKey ctx.tablesBySchema (rv.schemaname.getD ctx.defaultSchema)).bind
    (fun m => getKey m rv.relname)
  let name := (rv.alias_.map (fun a => a.aliasname)).getD rv.relname
  match table with
  | none => throw (.unknownTable name)
  | some t => pure (parsedTables ++ [⟨name, t.columns, nullable⟩])

/-- The indexed column-assembly `reduce` shared by `parseRangeSubselect` and
`parseCommonTableExpr`: column name from the alias column list when present,
else the result target's inferred name (an absent name would coerce to the
object key `"undefined"` in JavaScript). -/
def buildColumns (aliascolnames : List String) (rts : List ParsedExpression) :
    List (String × Column) :=
  (rts.enum).foldl
    (fun acc p =>
      let columnName := (aliascolnames.get? p.1).getD ((p.2.name).getD "undefined")
      setKey acc columnName ⟨p.2.nullable, p.2.type⟩)
    []

/-- The force-nullify step of `parseFromClause`: a nullable parsed table enters
scope with every column marked nullable. -/
def forceNullifyTable (pt : ParsedTable) : Table :=
  if pt.nullable then
    ⟨pt.columns.map (fun p => (p.1, ⟨true, p.2.type⟩)), pt.nullable⟩
  else
    ⟨pt.columns, pt.nullable⟩

/-- The scope-assembly `reduce` of `parseFromClause`, starting from the cloned
outer tables. -/
def scopeTables (pts : List ParsedTable) (init : Tables) : Tables :=
  pts.foldl (fun acc pt => setKey acc pt.alias_ (some (forceNullifyTable pt))) init

/-- Star expansion over one table's columns (`parseTargetList`). -/
def expandTableColumns (columns : List (String × Column))
    (acc : List (String × ParsedExpression)) : List (String × ParsedExpression) :=
  columns.foldl
    (fun acc p => setKey acc p.1 ⟨none, some p.1, p.2.nullable, none, p.2.type, none⟩)
    acc

/-- Star expansion over every scoped table (`parseTargetList`, bare `*`).  An
`undefined` table value crashes on `table.columns`. -/
def expandAllTables : List (String × Option Table) →
    List (String × ParsedExpression) → Except Err (List (String × ParsedExpression))
  | [], acc => pure acc
  | (_, none) :: _, _ => throw (.typeError "scoped table is undefined")
  | (_, some tbl) :: rest, acc => expandAllTables rest (expandTableColumns tbl.columns acc)

/-- The positional combine step of the set-operation branch of
`parseSelectStmt`: result columns are paired by index up to the length of the
left side; a missing right-hand column is an unguarded property access.  The
`set` concatenation flattens nested variants exactly as the four-way `if`
in the source (`xs.set ?? [xs]` on each side). -/
def combineSetOp : List ParsedExpression → List ParsedExpression →
    Except Err (List ParsedExpression)
  | [], _ => pure []
  | lResult :: ls, rres =>
      match rres with
      | [] => throw (.typeError "set operation operand has too few columns")
      | rResult :: rs => do
          let rest ← combineSetOp ls rs
          pure (⟨none, lResult.name, lResult.nullable || rResult.nullable,
            some ((lResult.set.getD [lResult]) ++ (rResult.set.getD [rResult])),
            lResult.type, none⟩ :: rest)

/-- Extract column `index` from every parsed VALUES row. -/
def extractAt : List (List ParsedExpression) → Nat → Except Err (List ParsedExpression)
  | [], _ => pure []
  | l :: ls, i => do
      let t ← match l.get? i with
        | some t => pure t
        | none => throw (.typeError "VALUES row has too few columns")
      let rest ← extractAt ls i
      pure (t :: rest)

/-- `[f 0, f 1, ..., f (n-1)]` in an `Except` computation (the index loops of
`parseSelectStmt`'s VALUES branch and of `format`). -/
def rangeMapM {α : Type} (f : Nat → Except Err α) : Nat → Nat → Except Err (List α)
  | _, 0 => pure []
  | i, k + 1 => do
      let a ← f i
      let rest ← rangeMapM f (i + 1) k
      pure (a :: rest)

/-- One result column of the VALUES branch of `parseSelectStmt`. -/
def valuesCol (lists : List (List ParsedExpression)) (index : Nat) :
    Except Err ParsedExpression := do
  let types ← extractAt lists index
  match types with
  | [] => throw (.typeError "no VALUES rows")
  | t0 :: _ =>
      pure ⟨none, some ("column" ++ toString (index + 1)),
        types.any (fun t => t.nullable), none, t0.type, some types⟩

/-- The pure tail of the VALUES branch of `parseSelectStmt`: one column per
entry of the first row. -/
def valuesColumns (lists : List (List ParsedExpression)) :
    Except Err (List ParsedExpression) :=
  match lists with
  | [] => throw (.typeError "empty valuesLists")
  | l0 :: _ => rangeMapM (fun i => valuesCol lists i) 0 l0.length

/-- The result shapes of the function-name catalog of `parseFuncCall`: which
arguments a family parses and how the result type and nullability are built. -/
inductive FuncFamily : Type where
  | passthroughFirst
  | firstArgShape
  | secondTyped
  | secondArgShape
  | avgFamily
  | anyNullTyped (t : String)
  | constTyped (nullable : Bool) (t : String)
  | firstNullableTyped (t : String)
  | arrayFill
deriving DecidableEq

/-- The function-name switch of `parseFuncCall` (createTypeGenerator.ts) as a
pure classification: each case group of the source maps to the family whose
body it shares.  The duplicate dead `case "format"` of the source is subsumed
by the first group.  Unknown names fall through to `any`, nullable, parsing
no arguments. -/
def classifyFunction (functionName : String) : FuncFamily :=
  match functionName with
  | "abs" | "acos" | "acosd" | "acosh" | "asin" | "asind" | "asinh" | "atan"
  | "atan2" | "atan2d" | "atand" | "atanh" | "bit_and" | "bit_or" | "bit_xor"
  | "btrim" | "cbrt" | "ceil" | "ceiling" | "convert" | "cos" | "cosd" | "cosh"
  | "cot" | "cotd" | "degrees" | "div" | "exp" | "factorial" | "floor"
  | "format" | "gcd" | "initcap" | "lcm" | "left" | "ln" | "log" | "log10"
  | "lower" | "lpad" | "ltrim" | "max" | "md5" | "min" | "mod" | "normalize"
  | "overlay" | "power" | "quote_ident" | "radians" | "regexp_replace"
  | "repeat" | "replace" | "reverse" | "right" | "round" | "rpad" | "rtrim"
  | "set_bit" | "set_byte" | "sha224" | "sha256" | "sha384" | "sha512"
  | "sign" | "sin" | "sind" | "sinh" | "split_part" | "sqrt" | "string_agg"
  | "substr" | "substring" | "sum" | "tan" | "tand" | "tanh" | "to_ascii"
  | "translate" | "trim" | "trim_scale" | "trunc" | "unistr" | "upper" =>
      .passthroughFirst
  | "array_append" | "array_cat" | "array_remove" | "array_replace" => .firstArgShape
  | "date_trunc" => .secondTyped
  | "array_prepend" => .secondArgShape
  | "avg" => .avgFamily
  | "bool_and" | "bool_or" | "every" | "isfinite" | "starts_with" =>
      .anyNullTyped "bool"
  | "convert_to" | "decode" => .anyNullTyped "bytea"
  | "make_date" | "to_date" => .anyNullTyped "date"
  | "date_part" => .anyNullTyped "float8"
  | "cume_dist" | "percent_rank" | "pi" | "random" => .constTyped false "float8"
  | "array_length" | "array_lower" | "array_ndims" | "array_upper" | "ascii"
  | "bit_length" | "cardinality" | "char_length" | "character_length" | "chr"
  | "get_bit" | "get_byte" | "length" | "min_scale" | "ntile" | "octet_length"
  | "position" | "scale" | "strpos" | "width_bucket" => .anyNullTyped "int4"
  | "array_position" => .constTyped true "int4"
  | "num_nonnulls" | "num_nulls" => .constTyped false "int4"
  | "array_positions" => .firstNullableTyped "int4[]"
  | "bit_count" => .anyNullTyped "int8"
  | "count" | "currval" | "dense_rank" | "lastval" | "nextval" | "rank"
  | "row_number" | "setval" => .constTyped false "int8"
  | "age" | "justify_days" | "justify_hours" | "justify_interval"
  | "make_interval" => .anyNullTyped "interval"
  | "extract" | "to_number" => .anyNullTyped "numeric"
  | "array_dims" | "array_to_string" | "concat" | "concat_ws" | "convert_from"
  | "encode" | "quote_literal" | "quote_nullable" | "to_char" | "to_hex" =>
      .anyNullTyped "text"
  | "timeofday" => .constTyped false "text"
  | "parse_ident" | "regexp_match" | "regexp_split_to_array" => .anyNullTyped "text[]"
  | "string_to_array" => .firstNullableTyped "text[]"
  | "make_time" => .anyNullTyped "time"
  | "date_bin" | "make_timestamp" => .anyNullTyped "timestamp"
  | "make_timestamptz" | "to_timestamp" => .anyNullTyped "timestamptz"
  | "clock_timestamp" | "now" | "statement_timestamp"
  | "transaction_timestamp" => .constTyped false "timestamptz"
  | "gen_random_uuid" => .constTyped false "uuid"
  | "array_fill" => .arrayFill
  | "similar_to_escape" => .constTyped false "text"
  | _ => .constTyped true "any"

/- ### sizeOf positivity facts used by the termination measures below -/

def list_sizeOf_pos {α : Type} [SizeOf α] (l : List α) : 0 < sizeOf l := by
  cases l <;> simp_arith

def option_sizeOf_pos {α : Type} [SizeOf α] (o : Option α) : 0 < sizeOf o := by
  cases o <;> simp_arith

def aExprKind_sizeOf_pos (k : AExprKind) : 0 < sizeOf k := by
  cases k <;> simp_arith

def subLinkType_sizeOf_pos (t : SubLinkType) : 0 < sizeOf t := by
  cases t <;> simp_arith

def joinType_sizeOf_pos (j : JoinType) : 0 < sizeOf j := by
  cases j <;> simp_arith

def alias_sizeOf_pos (a : Alias) : 0 < sizeOf a := by
  cases a <;> simp_arith

def rangeVarData_sizeOf_pos (rv : RangeVarData) : 0 < sizeOf rv := by
  cases rv <;> simp_arith

/- ### The recursive analyzer -/

set_option maxHeartbeats 3200000 in
mutual

/-- `parseExpression` from createTypeGenerator.ts: dispatch on the node kind.
Node kinds whose rule is non-recursive are delegated to the pure definitions
above; the others are mutual definitions below.  `parseBoolTest`,
`parseNullTest` and `parseParamRef` ignore their argument exactly as the
source functions take no node argument. -/
def parseExpression (e : Expression) (ctx : Context) : Except Err ParsedExpression :=
  match e with
  | .A_ArrayExpr elements =>
      match elements with
      | [] => throw (.typeError "reading elements[0] of an empty array")
      | el0 :: _ => do
          let p ← parseExpression el0 ctx
          pure (mkPE false (p.type ++ "[]"))
  | .A_Const val => parseAConst val
  | .A_Expr kind name lexpr rexpr => parseAExpr kind name lexpr rexpr ctx
  | .A_Indirection arg indirection => parseAIndirection arg indirection ctx
  | .BoolExpr _ args => do
      let expressions ← parseExprList args ctx
      pure (mkPE (expressions.any (fun x => x.nullable)) "bool")
  | .BoolTest _ _ => pure parseBoolTest
  | .CaseExpr args defresult => do
      let results ← parseCaseResults args ctx
      let defaultResult ← parseOptExpression defresult ctx
      parseCaseExprResult results defaultResult
  | .CoalesceExpr args => do
      let types ← coalesceCollect args ctx
      parseCoalesceExprResult types
  | .ColumnRef fields => parseColumnRef fields ctx
  | .FuncCall funcname args => parseFuncCall funcname args ctx
  | .ExprList items => do
      let expressions ← parseExprList items ctx
      parseListResult expressions
  | .MinMaxExpr _ args => do
      let types ← parseExprList args ctx
      parseMinMaxExprResult types
  | .NullTest _ _ => pure parseNullTest
  | .ParamRef _ => pure parseParamRef
  | .SQLValueFunction op => pure (parseSQLValueFunction op)
  | .SubLink subLinkType subselect => parseSubLink subLinkType subselect ctx
  | .TypeCast arg typeName => do
      let pe ← parseExpression arg ctx
      parseTypeCastResult pe typeName ctx.fallbackType
termination_by sizeOf e
decreasing_by
  all_goals simp_wf
  all_goals try omega
  all_goals first
    | (have h := aExprKind_sizeOf_pos kind; have h2 := list_sizeOf_pos name; omega)
    | (have h := subLinkType_sizeOf_pos subLinkType; omega)

/-- `parseAExpr` from createTypeGenerator.ts.  For `AEXPR_OP` the source reads
the operator name, parses the guarded operands, and then switches on the
operator (`aexprOpResult`).  The family of boolean kinds parses both operands
unguarded; `AEXPR_NULLIF` spreads the parsed left operand with `nullable:
true`. -/
def parseAExpr (kind : AExprKind) (name : List String) (lexpr rexpr : Option Expression)
    (ctx : Context) : Except Err ParsedExpression :=
  match kind with
  | .AEXPR_OP => do
      let opName ← match name.getLast? with
        | some n => pure n
        | none => throw (.typeError "reading the operator name of an empty list")
      let l ← parseOptExpression lexpr ctx
      let r ← parseOptExpression rexpr ctx
      aexprOpResult opName l r
  | .AEXPR_OP_ANY | .AEXPR_OP_ALL | .AEXPR_IN | .AEXPR_LIKE | .AEXPR_ILIKE
  | .AEXPR_SIMILAR | .AEXPR_BETWEEN | .AEXPR_NOT_BETWEEN | .AEXPR_BETWEEN_SYM
  | .AEXPR_NOT_BETWEEN_SYM => do
      let l ← parseReqExpression lexpr ctx
      let r ← parseReqExpression rexpr ctx
      pure (mkPE (l.nullable || r.nullable) "bool")
  | .AEXPR_DISTINCT | .AEXPR_NOT_DISTINCT => pure (mkPE false "bool")
  | .AEXPR_NULLIF => do
      let l ← parseReqExpression lexpr ctx
      pure (l.withNullable true)
termination_by sizeOf lexpr + sizeOf rexpr + 1
decreasing_by all_goals simp_wf <;> omega

/-- `expression.lexpr && parseExpression(expression.lexpr, context)`: parse an
operand only when present. -/
def parseOptExpression (oe : Option Expression) (ctx : Context) :
    Except Err (Option ParsedExpression) :=
  match oe with
  | some e => do
      let p ← parseExpression e ctx
      pure (some p)
  | none => pure none
termination_by sizeOf oe
decreasing_by all_goals simp_wf <;> omega

/-- `parseExpression(expression.lexpr, context)` on a possibly-absent operand:
the source would crash inside `getFirstKey(undefined)`. -/
def parseReqExpression (oe : Option Expression) (ctx : Context) : Except Err ParsedExpression :=
  match oe with
  | some e => parseExpression e ctx
  | none => throw (.typeError "getFirstKey of undefined")
termination_by sizeOf oe
decreasing_by all_goals simp_wf <;> omega

/-- `args.map(arg => parseExpression(arg, context))`. -/
def parseExprList (es : List Expression) (ctx : Context) : Except Err (List ParsedExpression) :=
  match es with
  | [] => pure []
  | a :: rest => do
      let p ← parseExpression a ctx
      let ps ← parseExprList rest ctx
      pure (p :: ps)
termination_by sizeOf es
decreasing_by all_goals simp_wf <;> omega

/-- `args.some(arg => parseExpression(arg, context).nullable)`: left-to-right
with short-circuit on the first nullable argument, so later arguments are not
parsed (and their errors not raised) once one is nullable. -/
def anyNullable (es : List Expression) (ctx : Context) : Except Err Bool :=
  match es with
  | [] => pure false
  | a :: rest => do
      let p ← parseExpression a ctx
      if p.nullable then pure true else anyNullable rest ctx
termination_by sizeOf es
decreasing_by all_goals simp_wf <;> omega

/-- The collection loop of `parseCoalesceExpr`: arguments are parsed in order
and collection stops (`break`) right after the first non-nullable one. -/
def coalesceCollect (args : List Expression) (ctx : Context) :
    Except Err (List ParsedExpression) :=
  match args with
  | [] => pure []
  | a :: rest => do
      let expression ← parseExpression a ctx
      if expression.nullable then do
        let more ← coalesceCollect rest ctx
        pure (expression :: more)
      else
        pure [expression]
termination_by sizeOf args
decreasing_by all_goals simp_wf <;> omega

/-- `args.map(arg => parseExpression(arg.CaseWhen.result, context))`. -/
def parseCaseResults (ws : List CaseWhen) (ctx : Context) :
    Except Err (List ParsedExpression) :=
  match ws with
  | [] => pure []
  | .mk _ result :: rest => do
      let p ← parseExpression result ctx
      let ps ← parseCaseResults rest ctx
      pure (p :: ps)
termination_by sizeOf ws
decreasing_by all_goals simp_wf <;> omega

/-- `lidx ? parseExpression(lidx, context).nullable : false`. -/
def parseIdxNullable (oe : Option Expression) (ctx : Context) : Except Err Bool :=
  match oe with
  | some e => do
      let p ← parseExpression e ctx
      pure p.nullable
  | none => pure false
termination_by sizeOf oe
decreasing_by all_goals simp_wf <;> omega

/-- `parseAIndirection` from createTypeGenerator.ts.  The `nullable || lidx?
|| uidx?` disjunction short-circuits exactly as JavaScript `||` does: slice
bounds are only parsed while the accumulated disjunction is still false. -/
def parseAIndirection (arg : Expression) (indirection : List AIndices) (ctx : Context) :
    Except Err ParsedExpression := do
  let pe ← parseExpression arg ctx
  if isArray pe.type then
    if indirection.length > 1 then
      throw (.unsupported "subscript expressions for multidimensional arrays")
    else
      match indirection with
      | [] => throw (.typeError "destructuring indirection[0] of an empty list")
      | .mk is_slice lidx uidx :: _ =>
          if is_slice then
            if pe.nullable then pure (mkPE true pe.type)
            else do
              let lN ← parseIdxNullable lidx ctx
              if lN then pure (mkPE true pe.type)
              else do
                let uN ← parseIdxNullable uidx ctx
                pure (mkPE uN pe.type)
          else
            pure (mkPE true (getElementType pe.type))
  else if isJson pe.type then
    pure (mkPE true "any")
  else
    throw (.unsupported ("subscript expressions with type " ++ pe.type))
termination_by sizeOf arg + sizeOf indirection
decreasing_by
  all_goals simp_wf
  all_goals try omega
  all_goals (have h := list_sizeOf_pos indirection; omega)

/-- `parseExpression(args[0], context)`. -/
def parseFirstArg (args : List Expression) (ctx : Context) : Except Err ParsedExpression :=
  match args with
  | [] => throw (.typeError "getFirstKey of undefined")
  | a :: _ => parseExpression a ctx
termination_by sizeOf args
decreasing_by all_goals simp_wf <;> omega

/-- `parseExpression(args[1], context)`. -/
def parseSecondArg (args : List Expression) (ctx : Context) : Except Err ParsedExpression :=
  match args with
  | _ :: b :: _ => parseExpression b ctx
  | _ => throw (.typeError "getFirstKey of undefined")
termination_by sizeOf args
decreasing_by all_goals simp_wf <;> omega

/-- `parseFuncCall` from createTypeGenerator.ts: read the function name, then
evaluate per the family of its catalog entry (`classifyFunction`). -/
def parseFuncCall (funcname : List String) (args : List Expression) (ctx : Context) :
    Except Err ParsedExpression := do
  let functionName ← match funcname.getLast? with
    | some n => pure n
    | none => throw (.typeError "reading the function name of an empty list")
  match classifyFunction functionName with
  | .passthroughFirst => do
      let nullable ← anyNullable args ctx
      let first ← parseFirstArg args ctx
      pure (mkPE nullable first.type)
  | .firstArgShape => do
      let first ← parseFirstArg args ctx
      pure (mkPE first.nullable first.type)
  | .secondTyped => do
      let nullable ← anyNullable args ctx
      let second ← parseSecondArg args ctx
      pure (mkPE nullable second.type)
  | .secondArgShape => do
      let second ← parseSecondArg args ctx
      pure (mkPE second.nullable second.type)
  | .avgFamily => do
      let first ← parseFirstArg args ctx
      pure (mkPE first.nullable
        (if ["interval", "float8"].contains first.type then first.type
         else if first.type == "float4" then "float8"
         else "numeric"))
  | .anyNullTyped t => do
      let nullable ← anyNullable args ctx
      pure (mkPE nullable t)
  | .constTyped nb t => pure (mkPE nb t)
  | .firstNullableTyped t => do
      let first ← parseFirstArg args ctx
      pure (mkPE first.nullable t)
  | .arrayFill => do
      let first ← parseFirstArg args ctx
      pure (mkPE false (getElementType first.type ++ "[]"))
termination_by sizeOf funcname + sizeOf args
decreasing_by
  all_goals simp_wf
  all_goals (have h := list_sizeOf_pos funcname; omega)

/-- `parseSubLink` from createTypeGenerator.ts.  The source calls
`parseStmt(subselect, context)` where `subselect` is a `SelectStmt` node, so
the dispatch lands in `parseSelectStmt`, which we call directly.  An inner
SELECT with no result columns makes `[0]` undefined: the `ARRAY` form crashes
destructuring it; for the `EXPR` form the source spreads `undefined`, an
ill-typed object we also treat as a type error (no claim exercises it). -/
def parseSubLink (subLinkType : SubLinkType) (subselect : SelectStmt) (ctx : Context) :
    Except Err ParsedExpression :=
  match subLinkType with
  | .ALL_SUBLINK | .ANY_SUBLINK => pure (mkPE true "bool")
  | .ARRAY_SUBLINK => do
      let rts ← parseSelectStmt subselect ctx
      match rts with
      | [] => throw (.typeError "destructuring an undefined result column")
      | r0 :: _ => pure (mkPE false (r0.type ++ "[]"))
  | .EXISTS_SUBLINK | .ROWCOMPARE_SUBLINK => pure (mkPE false "bool")
  | .EXPR_SUBLINK => do
      let rts ← parseSelectStmt subselect ctx
      match rts with
      | [] => throw (.typeError "spreading an undefined result column")
      | r0 :: _ => pure (r0.withNullable true)
  | .MULTIEXPR_SUBLINK => pure (mkPE false "any")
termination_by sizeOf subselect + 1
decreasing_by all_goals simp_wf <;> omega

/-- The `reduce` of `parseTargetList`: the accumulator is the insertion-ordered
`Map` keyed by column name (last write wins, original position kept).  Star
targets are expanded against the scope; any other target is parsed and must
have a non-empty alias (explicit or inferred). -/
def parseTargetListAcc (targetList : List ResTarget) (ctx : Context)
    (acc : List (String × ParsedExpression)) :
    Except Err (List (String × ParsedExpression)) :=
  match targetList with
  | [] => pure acc
  | .mk name val :: rest =>
      match val with
      | .ColumnRef .star => do
          let acc2 ← expandAllTables ctx.tables acc
          parseTargetListAcc rest ctx acc2
      | .ColumnRef (.tblStar tableName) =>
          (match (getKey ctx.tables tableName).join with
            | none => throw (.unknownTable tableName)
            | some table => parseTargetListAcc rest ctx (expandTableColumns table.columns acc))
      | other => do
          let parsedExpression ← parseExpression other ctx
          let alias2 := match name with
            | some n => some n
            | none => parsedExpression.name
          match alias2 with
          | none => throw .missingAlias
          | some a =>
              if a == "" then throw .missingAlias
              else parseTargetListAcc rest ctx (setKey acc a (parsedExpression.withName (some a)))
termination_by sizeOf targetList
decreasing_by all_goals simp_wf <;> omega

/-- `parseJoinExpr` from createTypeGenerator.ts: analyze `larg` into the
shared accumulator; for `RIGHT`/`FULL` joins mark every table collected so far
nullable; analyze `rarg` with nullable flag set iff the join is
`LEFT`/`FULL`.  Note the `JoinExpr` branch of `parseFromItem` drops an
incoming nullable flag, exactly as the source. -/
def parseJoinExpr (jointype : JoinType) (larg rarg : FromItem)
    (parsedTables : List ParsedTable) (ctx : Context) : Except Err (List ParsedTable) := do
  let pts1 ← parseFromItem larg parsedTables ctx false
  let pts2 := if jointype == .JOIN_RIGHT || jointype == .JOIN_FULL then
      pts1.map (fun pt => ⟨pt.alias_, pt.columns, true⟩)
    else pts1
  parseFromItem rarg pts2 ctx (jointype == .JOIN_LEFT || jointype == .JOIN_FULL)
termination_by sizeOf larg + sizeOf rarg + 1
decreasing_by all_goals simp_wf <;> omega

/-- `parseRangeSubselect` from createTypeGenerator.ts. -/
def parseRangeSubselect (alias_ : Alias) (subquery : SelectStmt)
    (parsedTables : List ParsedTable) (ctx : Context) (nullable : Bool) :
    Except Err (List ParsedTable) := do
  let rts ← parseSelectStmt subquery ctx
  pure (parsedTables ++
    [⟨alias_.aliasname, buildColumns (alias_.colnames.getD []) rts, nullable⟩])
termination_by sizeOf subquery + 1
decreasing_by all_goals simp_wf <;> omega

/-- `parseFromItem` from createTypeGenerator.ts. -/
def parseFromItem (fromItem : FromItem) (parsedTables : List ParsedTable)
    (ctx : Context) (nullable : Bool) : Except Err (List ParsedTable) :=
  match fromItem with
  | .JoinExpr jointype larg rarg => parseJoinExpr jointype larg rarg parsedTables ctx
  | .RangeSubselect alias_ subquery =>
      parseRangeSubselect alias_ subquery parsedTables ctx nullable
  | .RangeVar rv => parseRangeVar rv parsedTables ctx nullable
termination_by sizeOf fromItem
decreasing_by
  all_goals simp_wf
  all_goals first
    | (have h := joinType_sizeOf_pos jointype; omega)
    | (have h := alias_sizeOf_pos alias_; omega)

/-- The per-item loop of `parseFromClause`: each top-level FROM item is parsed
into a fresh accumulator, so join-nullability never crosses between items. -/
def parseFromItems (fromItems : List FromItem) (ctx : Context) :
    Except Err (List ParsedTable) :=
  match fromItems with
  | [] => pure []
  | item :: rest => do
      let pts ← parseFromItem item [] ctx false
      let more ← parseFromItems rest ctx
      pure (pts ++ more)
termination_by sizeOf fromItems
decreasing_by all_goals simp_wf <;> omega

/-- `parseFromClause` from createTypeGenerator.ts: collect the parsed tables,
clone the outer context, and build the scope on top of the clone's tables,
force-nullifying the columns of nullable tables. -/
def parseFromClause (fromItems : List FromItem) (ctx : Context) : Except Err Context := do
  let parsedTables ← parseFromItems fromItems ctx
  let clonedContext := clone ctx
  pure ⟨scopeTables parsedTables clonedContext.tables, clonedContext.defaultSchema,
    clonedContext.fallbackType, clonedContext.tablesBySchema⟩
termination_by sizeOf fromItems + 1
decreasing_by all_goals simp_wf <;> omega

/-- `parseCommonTableExpr` from createTypeGenerator.ts: analyze the CTE body
and install its synthetic table under the default schema of the context it was
handed (the clone made by `parseWithClause`); mutation of that context is
modelled by returning the updated value. -/
def parseCommonTableExpr (cte : CommonTableExpr) (ctx : Context) : Except Err Context :=
  match cte with
  | .mk ctename aliascolnames ctequery => do
      let rts ← parseStmt ctequery ctx
      match getKey ctx.tablesBySchema ctx.defaultSchema with
      | none => throw (.typeError "the default schema map is undefined")
      | some inner =>
          pure ⟨ctx.tables, ctx.defaultSchema, ctx.fallbackType,
            setKey ctx.tablesBySchema ctx.defaultSchema
              (setKey inner ctename ⟨buildColumns (aliascolnames.getD []) rts, false⟩)⟩
termination_by sizeOf cte
decreasing_by all_goals simp_wf <;> omega

/-- The CTE loop of `parseWithClause`: successive CTEs see the tables installed
by the previous ones. -/
def parseCtes (ctes : List CommonTableExpr) (ctx : Context) : Except Err Context :=
  match ctes with
  | [] => pure ctx
  | cte :: rest => do
      let ctx2 ← parseCommonTableExpr cte ctx
      parseCtes rest ctx2
termination_by sizeOf ctes
decreasing_by all_goals simp_wf <;> omega

/-- `parseWithClause` from createTypeGenerator.ts: clone the context, then let
each CTE write into the clone. -/
def parseWithClause (w : WithClause) (ctx : Context) : Except Err Context :=
  match w with
  | .mk ctes => parseCtes ctes (clone ctx)
termination_by sizeOf w
decreasing_by all_goals simp_wf <;> omega

/-- `parseSelectStmt` from createTypeGenerator.ts: the three forms are VALUES
lists, set operations, and the simple form (WITH, then FROM, then the target
list). -/
def parseSelectStmt (s : SelectStmt) (ctx : Context) : Except Err (List ParsedExpression) :=
  match s with
  | .values valuesLists => do
      let lists ← parseValuesLists valuesLists ctx
      valuesColumns lists
  | .setOp larg rarg => do
      let lres ← parseSelectStmt larg ctx
      let rres ← parseSelectStmt rarg ctx
      combineSetOp lres rres
  | .simple targetList fromClause withClause => do
      let contextWithWith ← match withClause with
        | some w => parseWithClause w ctx
        | none => pure ctx
      let contextWithFrom ← match fromClause with
        | some items => parseFromClause items contextWithWith
        | none => pure contextWithWith
      match targetList with
      | some tl => do
          let acc ← parseTargetListAcc tl contextWithFrom []
          pure (acc.map (fun p => p.2))
      | none => do
          let acc ← parseTargetListAcc [] contextWithFrom []
          pure (acc.map (fun p => p.2))
termination_by sizeOf s
decreasing_by all_goals simp_wf <;> omega

/-- `stmt.valuesLists.map(valuesList => valuesList.List.items.map(...))`. -/
def parseValuesLists (vls : List (List Expression)) (ctx : Context) :
    Except Err (List (List ParsedExpression)) :=
  match vls with
  | [] => pure []
  | row :: rest => do
      let ps ← parseExprList row ctx
      let rs ← parseValuesLists rest ctx
      pure (ps :: rs)
termination_by sizeOf vls
decreasing_by all_goals simp_wf <;> omega

/-- `parseDeleteStmt` from createTypeGenerator.ts: clone the context, bind the
target relation under its alias (the bound value is `undefined` when the
catalog lookup misses, hence `Option Table`), analyze RETURNING. -/
def parseDeleteStmt (relation : RangeVarData) (returningList : Option (List ResTarget))
    (ctx : Context) : Except Err (List ParsedExpression) := do
  let clonedContext := clone ctx
  let schema := relation.schemaname.getD ctx.defaultSchema
  let tableName := (relation.alias_.map (fun a => a.aliasname)).getD relation.relname
  let table ← match getKey ctx.tablesBySchema schema with
    | none => throw (.typeError "the schema map is undefined")
    | some m => pure (getKey m relation.relname)
  let ctx2 : Context := ⟨setKey clonedContext.tables tableName table,
    clonedContext.defaultSchema, clonedContext.fallbackType, clonedContext.tablesBySchema⟩
  match returningList with
  | some rl => do
      let acc ← parseTargetListAcc rl ctx2 []
      pure (acc.map (fun p => p.2))
  | none => do
      let acc ← parseTargetListAcc [] ctx2 []
      pure (acc.map (fun p => p.2))
termination_by sizeOf returningList + 1
decreasing_by all_goals simp_wf <;> omega

/-- `parseInsertStmt` from createTypeGenerator.ts (identical shape to
`parseDeleteStmt`; `onConflictClause` is never read). -/
def parseInsertStmt (relation : RangeVarData) (returningList : Option (List ResTarget))
    (ctx : Context) : Except Err (List ParsedExpression) := do
  let clonedContext := clone ctx
  let schema := relation.schemaname.getD ctx.defaultSchema
  let tableName := (relation.alias_.map (fun a => a.aliasname)).getD relation.relname
  let table ← match getKey ctx.tablesBySchema schema with
    | none => throw (.typeError "the schema map is undefined")
    | some m => pure (getKey m relation.relname)
  let ctx2 : Context := ⟨setKey clonedContext.tables tableName table,
    clonedContext.defaultSchema, clonedContext.fallbackType, clonedContext.tablesBySchema⟩
  match returningList with
  | some rl => do
      let acc ← parseTargetListAcc rl ctx2 []
      pure (acc.map (fun p => p.2))
  | none => do
      let acc ← parseTargetListAcc [] ctx2 []
      pure (acc.map (fun p => p.2))
termination_by sizeOf returningList + 1
decreasing_by all_goals simp_wf <;> omega

/-- `parseUpdateStmt` from createTypeGenerator.ts (identical shape to
`parseDeleteStmt`). -/
def parseUpdateStmt (relation : RangeVarData) (returningList : Option (List ResTarget))
    (ctx : Context) : Except Err (List ParsedExpression) := do
  let clonedContext := clone ctx
  let schema := relation.schemaname.getD ctx.defaultSchema
  let tableName := (relation.alias_.map (fun a => a.aliasname)).getD relation.relname
  let table ← match getKey ctx.tablesBySchema schema with
    | none => throw (.typeError "the schema map is undefined")
    | some m => pure (getKey m relation.relname)
  let ctx2 : Context := ⟨setKey clonedContext.tables tableName table,
    clonedContext.defaultSchema, clonedContext.fallbackType, clonedContext.tablesBySchema⟩
  match returningList with
  | some rl => do
      let acc ← parseTargetListAcc rl ctx2 []
      pure (acc.map (fun p => p.2))
  | none => do
      let acc ← parseTargetListAcc [] ctx2 []
      pure (acc.map (fun p => p.2))
termination_by sizeOf returningList + 1
decreasing_by all_goals simp_wf <;> omega

/-- `parseStmt` from createTypeGenerator.ts. -/
def parseStmt (st : Stmt) (ctx : Context) : Except Err (List ParsedExpression) :=
  match st with
  | .DeleteStmt relation returningList => parseDeleteStmt relation returningList ctx
  | .InsertStmt relation returningList => parseInsertStmt relation returningList ctx
  | .SelectStmt s => parseSelectStmt s ctx
  | .UpdateStmt relation returningList => parseUpdateStmt relation returningList ctx
termination_by sizeOf st
decreasing_by
  all_goals simp_wf
  all_goals try omega
  all_goals (have h := rangeVarData_sizeOf_pos relation; omega)

end

/-- `parseTargetList` from createTypeGenerator.ts:
`Array.from(reduce(...).values())`. -/
def parseTargetList (targetList : List ResTarget) (ctx : Context) :
    Except Err (List ParsedExpression) := do
  let acc ← parseTargetListAcc targetList ctx []
  pure (acc.map (fun p => p.2))

/-- `parseRawStmt` from createTypeGenerator.ts. -/
def parseRawStmt (rs : RawStmt) (ctx : Context) : Except Err (List ParsedExpression) :=
  parseStmt rs.stmt ctx

/- ### Formatting (createTypeGenerator.ts `formatExpression`, `format`,
`getTypeMapper`) -/

/-- The union parts computed by `formatExpression`: per branch the
`constantValue` when present, else the mapped `sql_type`; `"null"` appended
when the expression is nullable; deduplicated keeping first occurrences. -/
def renderedTypes (p : ParsedExpression) (mapType : String → String) : List String :=
  let tsTypes := match p.types with
    | some types => types.map (fun e => e.constantValue.getD (mapType e.type))
    | none => [p.constantValue.getD (mapType p.type)]
  unique (if p.nullable then tsTypes ++ ["null"] else tsTypes)

/-- `formatExpression` from createTypeGenerator.ts, the context's two function
fields passed explicitly (`formatFunc(name || "", tsUnionType)`). -/
def formatExpression (p : ParsedExpression) (formatFunc : String → String → String)
    (mapType : String → String) : String :=
  formatFunc (p.name.getD "") (String.intercalate " | " (renderedTypes p mapType))

/-- Render column `index` of every result target's `set` (the set-variant
branch of `format`).  A target whose `set` is shorter than the first target's
hits `formatExpression(undefined)`. -/
def formatSetColumn (resultTargets : List ParsedExpression) (index : Nat)
    (formatFunc : String → String → String) (mapType : String → String) :
    Except Err (List String) :=
  match resultTargets with
  | [] => pure []
  | rt :: rest => do
      let pe ← match rt.set.bind (fun s => s.get? index) with
        | some pe => pure pe
        | none => throw (.typeError "formatting an undefined set variant")
      let more ← formatSetColumn rest index formatFunc mapType
      pure (formatExpression pe formatFunc mapType :: more)

/-- `format` from createTypeGenerator.ts, up to the external Prettier call:
the source string starts as the sentinel `\x7b[K in any]: never\x7d` and is
replaced when there are result targets; when every target carries `set`
variants a union of object types is emitted, one per variant index of the
first target.  The final `prettierFormat("type T = " + source)` plus strip
round-trip is external pretty-printing (§6) and is modelled as the identity
on `source`. -/
def format (resultTargets : List ParsedExpression) (formatFunc : String → String → String)
    (mapType : String → String) : Except Err String :=
  match resultTargets with
  | [] => pure "\x7b[K in any]: never\x7d"
  | rt0 :: _ =>
      if resultTargets.all (fun rt => rt.set.isSome) then do
        let pieces ← rangeMapM
          (fun index => do
            let cols ← formatSetColumn resultTargets index formatFunc mapType
            pure (String.intercalate " " (["\x7b"] ++ cols ++ ["\x7d"])))
          0 ((rt0.set.getD []).length)
        pure (String.intercalate " | " pieces)
      else
        pure (String.intercalate " "
          (["\x7b"] ++ resultTargets.map (fun e => formatExpression e formatFunc mapType)
            ++ ["\x7d"]))

/-- The fixed default map of `getTypeMapper` (createTypeGenerator.ts). -/
def defaultTypeMapEntries : List (String × String) :=
  [("any", "any"), ("bool", "boolean"), ("bigserial", "number"),
   ("bit", "string"), ("bpchar", "string"), ("bytea", "Buffer"),
   ("cidr", "string"), ("citext", "string"), ("circle", "string"),
   ("date", "string"), ("decimal", "number"), ("float2", "number"),
   ("float4", "number"), ("float8", "number"), ("int2", "number"),
   ("int4", "number"), ("int8", "number"), ("inet", "string"),
   ("interval", "string"), ("json", "any"), ("jsonb", "any"),
   ("line", "string"), ("lseg", "string"), ("macaddr", "string"),
   ("macaddr8", "string"), ("money", "string"), ("null", "null"),
   ("numeric", "number"), ("oid", "number"), ("path", "string"),
   ("point", "string"), ("polygon", "string"), ("serial", "number"),
   ("serial2", "number"), ("serial4", "number"), ("serial8", "number"),
   ("smallserial", "number"), ("text", "string"), ("time", "string"),
   ("timestamp", "string"), ("timestamptz", "string"), ("timetz", "string"),
   ("tsquery", "string"), ("tsvector", "string"), ("unknown", "unknown"),
   ("uuid", "string"), ("varbit", "string"), ("varchar", "string"),
   ("xml", "string")]

/-- The mapper returned by `getTypeMapper`: enum renderings and user overrides
spread over the defaults (later spreads win), looked up by element type; a
falsy hit (absent, or an empty-string override) falls back to `fallbackType`;
array tags wrap the result in `Array<...>`. -/
def getTypeMapperFn (enums customTypeMap : List (String × String))
    (fallbackType : String) (pgType : String) : String :=
  let key := getElementType pgType
  let found := match getKey customTypeMap key with
    | some v => some v
    | none =>
        match getKey enums key with
        | some v => some v
        | none => getKey defaultTypeMapEntries key
  let tsType := match found with
    | some v => if v == "" then fallbackType else v
    | none => fallbackType
  if isArray pgType then "Array<" ++ tsType ++ ">" else tsType

/-- The default `formatFunc` of `createTypeGenerator`. -/
def defaultFormatFunc (name tsType : String) : String :=
  "\"" ++ name ++ "\": " ++ tsType ++ ","

/-- `mapType` as built for a database with no enum types, no user overrides,
and the default fallback type `"string"`. -/
def defaultMapType : String → String :=
  getTypeMapperFn [] [] "string"

/- ### Driver boundary (createTypeGenerator.ts `parseQuery`,
`createTypeGenerator`) -/

/-- The body of the `try` block of `parseQuery`: analyze and format every
statement the external parser produced, in order; the first thrown error
aborts the whole list. -/
def formatRawStmts (rawStmts : List RawStmt) (ctx : Context)
    (formatFunc : String → String → String) (mapType : String → String) :
    Except Err (List String) :=
  match rawStmts with
  | [] => pure []
  | rs :: rest => do
      let rts ← parseRawStmt rs ctx
      let s ← format rts formatFunc mapType
      let more ← formatRawStmts rest ctx formatFunc mapType
      pure (s :: more)

/-- The `{ results: [...] } | { error }` union returned by
`parseQuery`/`generate`. -/
inductive GenerateResult : Type where
  | results (results : List String)
  | error (e : Err)
deriving DecidableEq

/-- `parseQuery` from createTypeGenerator.ts: the per-query try/catch
boundary.  `parseResult` stands for the outcome of the external
`parse(query)` call, whose own exceptions the same handler catches. -/
def parseQuery (parseResult : Except Err (List RawStmt)) (ctx : Context)
    (formatFunc : String → String → String) (mapType : String → String) :
    GenerateResult :=
  match (do
      let rawStmts ← parseResult
      formatRawStmts rawStmts ctx formatFunc mapType : Except Err (List String)) with
  | .ok results => .results results
  | .error e => .error e

/-- The `generate` closure returned by `createTypeGenerator`: every call runs
`parseQuery` with the single context built at startup. -/
def generate (ctx : Context) (formatFunc : String → String → String)
    (mapType : String → String) (parseResult : Except Err (List RawStmt)) :
    GenerateResult :=
  parseQuery parseResult ctx formatFunc mapType

/- ### Measurement helpers for stating the claims -/

/-- The operand queries of a set-operation tree, in source order. -/
def setLeaves : SelectStmt → List SelectStmt
  | .setOp larg rarg => setLeaves larg ++ setLeaves rarg
  | s => [s]

/-- `xs.set ?? [xs]`: the variant list a column contributes to an enclosing
set operation. -/
def variantList (p : ParsedExpression) : List ParsedExpression :=
  p.set.getD [p]

/- ### General-purpose lemmas -/

@[simp] theorem pe_mk_constantValue (c n : Option String) (nb : Bool)
    (s : Option (List ParsedExpression)) (t : String)
    (ts : Option (List ParsedExpression)) :
    (ParsedExpression.mk c n nb s t ts).constantValue = c := rfl

@[simp] theorem pe_mk_name (c n : Option String) (nb : Bool)
    (s : Option (List ParsedExpression)) (t : String)
    (ts : Option (List ParsedExpression)) :
    (ParsedExpression.mk c n nb s t ts).name = n := rfl

@[simp] theorem pe_mk_nullable (c n : Option String) (nb : Bool)
    (s : Option (List ParsedExpression)) (t : String)
    (ts : Option (List ParsedExpression)) :
    (ParsedExpression.mk c n nb s t ts).nullable = nb := rfl

@[simp] theorem pe_mk_set (c n : Option String) (nb : Bool)
    (s : Option (List ParsedExpression)) (t : String)
    (ts : Option (List ParsedExpression)) :
    (ParsedExpression.mk c n nb s t ts).set = s := rfl

@[simp] theorem pe_mk_type (c n : Option String) (nb : Bool)
    (s : Option (List ParsedExpression)) (t : String)
    (ts : Option (List ParsedExpression)) :
    (ParsedExpression.mk c n nb s t ts).type = t := rfl

@[simp] theorem pe_mk_types (c n : Option String) (nb : Bool)
    (s : Option (List ParsedExpression)) (t : String)
    (ts : Option (List ParsedExpression)) :
    (ParsedExpression.mk c n nb s t ts).types = ts := rfl

@[simp] theorem pe_mk_withNullable (c n : Option String) (nb : Bool)
    (s : Option (List ParsedExpression)) (t : String)
    (ts : Option (List ParsedExpression)) (b : Bool) :
    (ParsedExpression.mk c n nb s t ts).withNullable b = .mk c n b s t ts := rfl

@[simp] theorem pe_mk_withName (c n : Option String) (nb : Bool)
    (s : Option (List ParsedExpression)) (t : String)
    (ts : Option (List ParsedExpression)) (a : Option String) :
    (ParsedExpression.mk c n nb s t ts).withName a = .mk c a nb s t ts := rfl

@[simp] theorem except_bind_ok {α β : Type} (a : α) (f : α → Except Err β) :
    (Except.ok a >>= f : Except Err β) = f a := rfl

@[simp] theorem except_bind_err {α β : Type} (e : Err) (f : α → Except Err β) :
    ((Except.error e : Except Err α) >>= f) = Except.error e := rfl

@[simp] theorem except_pure_eq {α : Type} (a : α) :
    (pure a : Except Err α) = Except.ok a := rfl

@[simp] theorem except_throw_eq {α : Type} (e : Err) :
    (throw e : Except Err α) = Except.error e := rfl

@[simp] theorem except_map_ok {α β : Type} (f : α → β) (a : α) :
    Except.map f (Except.ok a : Except Err α) = Except.ok (f a) := rfl

@[simp] theorem except_map_err {α β : Type} (f : α → β) (e : Err) :
    Except.map f (Except.error e : Except Err α) = Except.error e := rfl

theorem mem_unique_iff {α : Type} [DecidableEq α] (l : List α) (x : α) :
    x ∈ unique l ↔ x ∈ l := by
  have key : ∀ (l acc : List α) (x : α), x ∈ l.foldl
      (fun acc x => if acc.contains x then acc else acc ++ [x]) acc ↔
      x ∈ l ∨ x ∈ acc := by
    intro l
    induction l with
    | nil => intro acc x; simp
    | cons a as ih =>
        intro acc x
        simp only [List.foldl_cons]
        rw [ih]
        constructor
        · rintro (h | h)
          · exact Or.inl (List.mem_cons_of_mem _ h)
          · by_cases hc : acc.contains a = true
            · rw [if_pos hc] at h
              exact Or.inr h
            · rw [if_neg hc] at h
              rcases List.mem_append.mp h with h2 | h2
              · exact Or.inr h2
              · exact Or.inl (by simp at h2; simp [h2])
        · rintro (h | h)
          · rcases List.mem_cons.mp h with rfl | h2
            · by_cases hc : acc.contains x = true
              · exact Or.inr (by rw [if_pos hc]; simp at hc; exact hc)
              · exact Or.inr (by rw [if_neg hc]; simp)
            · exact Or.inl h2
          · refine Or.inr ?_
            by_cases hc : acc.contains a = true
            · rw [if_pos hc]; exact h
            · rw [if_neg hc]; exact List.mem_append_left _ h
  rw [unique, key]
  simp

theorem getKey_setKey_ne {α : Type} (l : List (String × α)) (k s : String) (v : α)
    (h : s ≠ k) : getKey (setKey l k v) s = getKey l s := by
  have hks : (k == s) = false := by
    simp only [beq_eq_false_iff_ne, ne_eq]
    exact fun x => h x.symm
  by_cases hc : l.any (fun p => p.1 == k) = true
  · rw [setKey, if_pos hc]
    clear hc
    induction l with
    | nil => rfl
    | cons p ps ih =>
        by_cases hpk : (p.1 == k) = true
        · have hps : (p.1 == s) = false := by
            have hp1 : p.1 = k := by simpa using hpk
            rw [hp1]; exact hks
          simp only [List.map_cons, if_pos hpk, getKey, hks, hps]
          simpa using ih
        · simp only [List.map_cons, if_neg hpk, getKey]
          by_cases hps : (p.1 == s) = true
          · simp [hps]
          · simp only [hps]
            simpa using ih
  · rw [setKey, if_neg hc]
    clear hc
    induction l with
    | nil => simp [getKey, hks]
    | cons p ps ih =>
        simp only [List.cons_append, getKey]
        by_cases hps : (p.1 == s) = true
        · simp [hps]
        · simp only [hps]
          simpa using ih

theorem getKey_setKey_self {α : Type} (l : List (String × α)) (k : String) (v : α) :
    getKey (setKey l k v) k = some v := by
  by_cases hc : l.any (fun p => p.1 == k) = true
  · rw [setKey, if_pos hc]
    revert hc
    induction l with
    | nil => intro hc; simp at hc
    | cons p ps ih =>
        intro hc
        by_cases hpk : (p.1 == k) = true
        · have hp1 : p.1 = k := by simpa using hpk
          simp [hp1, getKey]
        · have hc2 : ps.any (fun p => p.1 == k) = true := by simpa [hpk] using hc
          have hb : (p.1 == k) = false := by simpa using hpk
          simp only [List.map_cons, if_neg hpk]
          simp only [getKey, hb]
          simpa using ih hc2
  · rw [setKey, if_neg hc]
    revert hc
    induction l with
    | nil => intro _; simp [getKey]
    | cons p ps ih =>
        intro hc
        have h1 : (p.1 == k) = false := by
          by_cases hb : (p.1 == k) = true
          · exact absurd (by rw [List.any_cons, hb, Bool.true_or]) hc
          · simpa using hb
        have h2 : ¬ ps.any (fun p => p.1 == k) = true := by
          intro hpsk
          exact hc (by rw [List.any_cons, hpsk, Bool.or_true])
        simp only [List.cons_append, getKey, h1]
        simpa using ih h2

/- ### One-step unfolding lemmas for the well-founded mutual definitions -/

set_option maxRecDepth 16000
set_option maxHeartbeats 1000000

theorem unfold_pe_arrayExpr (elements : List Expression) (ctx : Context) :
    parseExpression (.A_ArrayExpr elements) ctx =
      (match elements with
        | [] => throw (.typeError "reading elements[0] of an empty array")
        | el0 :: _ => do
            let p ← parseExpression el0 ctx
            pure (mkPE false (p.type ++ "[]"))) := by
  rw [parseExpression.eq_def]

theorem unfold_pe_aconst (val : AConstVal) (ctx : Context) :
    parseExpression (.A_Const val) ctx = parseAConst val := by
  rw [parseExpression.eq_def]

theorem unfold_pe_aexpr (kind : AExprKind) (name : List String)
    (lexpr rexpr : Option Expression) (ctx : Context) :
    parseExpression (.A_Expr kind name lexpr rexpr) ctx =
      parseAExpr kind name lexpr rexpr ctx := by
  rw [parseExpression.eq_def]

theorem unfold_pe_aindirection (arg : Expression) (indirection : List AIndices)
    (ctx : Context) :
    parseExpression (.A_Indirection arg indirection) ctx =
      parseAIndirection arg indirection ctx := by
  rw [parseExpression.eq_def]

theorem unfold_pe_boolExpr (op : BoolExprType) (args : List Expression) (ctx : Context) :
    parseExpression (.BoolExpr op args) ctx = (do
      let expressions ← parseExprList args ctx
      pure (mkPE (expressions.any (fun x => x.nullable)) "bool")) := by
  rw [parseExpression.eq_def]

theorem unfold_pe_boolTest (t : BoolTestType) (arg : Expression) (ctx : Context) :
    parseExpression (.BoolTest t arg) ctx = pure parseBoolTest := by
  rw [parseExpression.eq_def]

theorem unfold_pe_caseExpr (args : List CaseWhen) (defresult : Option Expression)
    (ctx : Context) :
    parseExpression (.CaseExpr args defresult) ctx = (do
      let results ← parseCaseResults args ctx
      let defaultResult ← parseOptExpression defresult ctx
      parseCaseExprResult results defaultResult) := by
  rw [parseExpression.eq_def]

theorem unfold_pe_coalesce (args : List Expression) (ctx : Context) :
    parseExpression (.CoalesceExpr args) ctx = (do
      let types ← coalesceCollect args ctx
      parseCoalesceExprResult types) := by
  rw [parseExpression.eq_def]

theorem unfold_pe_columnRef (fields : ColumnRefFields) (ctx : Context) :
    parseExpression (.ColumnRef fields) ctx = parseColumnRef fields ctx := by
  rw [parseExpression.eq_def]

theorem unfold_pe_funcCall (funcname : List String) (args : List Expression)
    (ctx : Context) :
    parseExpression (.FuncCall funcname args) ctx = parseFuncCall funcname args ctx := by
  rw [parseExpression.eq_def]

theorem unfold_pe_exprList (items : List Expression) (ctx : Context) :
    parseExpression (.ExprList items) ctx = (do
      let expressions ← parseExprList items ctx
      parseListResult expressions) := by
  rw [parseExpression.eq_def]

theorem unfold_pe_minMax (op : MinMaxOp) (args : List Expression) (ctx : Context) :
    parseExpression (.MinMaxExpr op args) ctx = (do
      let types ← parseExprList args ctx
      parseMinMaxExprResult types) := by
  rw [parseExpression.eq_def]

theorem unfold_pe_nullTest (t : NullTestType) (arg : Expression) (ctx : Context) :
    parseExpression (.NullTest t arg) ctx = pure parseNullTest := by
  rw [parseExpression.eq_def]

theorem unfold_pe_paramRef (n : Int) (ctx : Context) :
    parseExpression (.ParamRef n) ctx = pure parseParamRef := by
  rw [parseExpression.eq_def]

theorem unfold_pe_svf (op : SQLValueFunctionOp) (ctx : Context) :
    parseExpression (.SQLValueFunction op) ctx = pure (parseSQLValueFunction op) := by
  rw [parseExpression.eq_def]

theorem unfold_pe_subLink (t : SubLinkType) (subselect : SelectStmt) (ctx : Context) :
    parseExpression (.SubLink t subselect) ctx = parseSubLink t subselect ctx := by
  rw [parseExpression.eq_def]

theorem unfold_pe_typeCast (arg : Expression) (typeName : TypeName) (ctx : Context) :
    parseExpression (.TypeCast arg typeName) ctx = (do
      let pe ← parseExpression arg ctx
      parseTypeCastResult pe typeName ctx.fallbackType) := by
  rw [parseExpression.eq_def]

theorem unfold_coalesceCollect_nil (ctx : Context) :
    coalesceCollect [] ctx = pure [] := by
  rw [coalesceCollect.eq_def]

theorem unfold_coalesceCollect_cons (a : Expression) (rest : List Expression)
    (ctx : Context) :
    coalesceCollect (a :: rest) ctx = (do
      let expression ← parseExpression a ctx
      if expression.nullable then do
        let more ← coalesceCollect rest ctx
        pure (expression :: more)
      else
        pure [expression]) := by
  rw [coalesceCollect.eq_def]

theorem unfold_parseCaseResults_nil (ctx : Context) :
    parseCaseResults [] ctx = pure [] := by
  rw [parseCaseResults.eq_def]

theorem unfold_parseCaseResults_cons (e result : Expression) (rest : List CaseWhen)
    (ctx : Context) :
    parseCaseResults (.mk e result :: rest) ctx = (do
      let p ← parseExpression result ctx
      let ps ← parseCaseResults rest ctx
      pure (p :: ps)) := by
  rw [parseCaseResults.eq_def]

theorem unfold_parseExprList_nil (ctx : Context) :
    parseExprList [] ctx = pure [] := by
  rw [parseExprList.eq_def]

theorem unfold_parseExprList_cons (a : Expression) (rest : List Expression)
    (ctx : Context) :
    parseExprList (a :: rest) ctx = (do
      let p ← parseExpression a ctx
      let ps ← parseExprList rest ctx
      pure (p :: ps)) := by
  rw [parseExprList.eq_def]

theorem unfold_anyNullable_nil (ctx : Context) : anyNullable [] ctx = pure false := by
  rw [anyNullable.eq_def]

theorem unfold_anyNullable_cons (a : Expression) (rest : List Expression) (ctx : Context) :
    anyNullable (a :: rest) ctx = (do
      let p ← parseExpression a ctx
      if p.nullable then pure true else anyNullable rest ctx) := by
  rw [anyNullable.eq_def]

theorem unfold_parseOptExpression_none (ctx : Context) :
    parseOptExpression none ctx = pure none := by
  rw [parseOptExpression.eq_def]

theorem unfold_parseOptExpression_some (e : Expression) (ctx : Context) :
    parseOptExpression (some e) ctx = (do
      let p ← parseExpression e ctx
      pure (some p)) := by
  rw [parseOptExpression.eq_def]

theorem unfold_parseIdxNullable_none (ctx : Context) :
    parseIdxNullable none ctx = pure false := by
  rw [parseIdxNullable.eq_def]

theorem unfold_parseIdxNullable_some (e : Expression) (ctx : Context) :
    parseIdxNullable (some e) ctx = (do
      let p ← parseExpression e ctx
      pure p.nullable) := by
  rw [parseIdxNullable.eq_def]

theorem unfold_parseAIndirection (arg : Expression) (indirection : List AIndices)
    (ctx : Context) :
    parseAIndirection arg indirection ctx = (do
      let pe ← parseExpression arg ctx
      if isArray pe.type then
        if indirection.length > 1 then
          throw (.unsupported "subscript expressions for multidimensional arrays")
        else
          match indirection with
          | [] => throw (.typeError "destructuring indirection[0] of an empty list")
          | .mk is_slice lidx uidx :: _ =>
              if is_slice then
                if pe.nullable then pure (mkPE true pe.type)
                else do
                  let lN ← parseIdxNullable lidx ctx
                  if lN then pure (mkPE true pe.type)
                  else do
                    let uN ← parseIdxNullable uidx ctx
                    pure (mkPE uN pe.type)
              else
                pure (mkPE true (getElementType pe.type))
      else if isJson pe.type then
        pure (mkPE true "any")
      else
        throw (.unsupported ("subscript expressions with type " ++ pe.type))) := by
  rw [parseAIndirection.eq_def]

theorem unfold_parseSubLink (t : SubLinkType) (subselect : SelectStmt) (ctx : Context) :
    parseSubLink t subselect ctx =
      (match t with
        | .ALL_SUBLINK | .ANY_SUBLINK => pure (mkPE true "bool")
        | .ARRAY_SUBLINK => do
            let rts ← parseSelectStmt subselect ctx
            match rts with
            | [] => throw (.typeError "destructuring an undefined result column")
            | r0 :: _ => pure (mkPE false (r0.type ++ "[]"))
        | .EXISTS_SUBLINK | .ROWCOMPARE_SUBLINK => pure (mkPE false "bool")
        | .EXPR_SUBLINK => do
            let rts ← parseSelectStmt subselect ctx
            match rts with
            | [] => throw (.typeError "spreading an undefined result column")
            | r0 :: _ => pure (r0.withNullable true)
        | .MULTIEXPR_SUBLINK => pure (mkPE false "any")) := by
  rw [parseSubLink.eq_def]

theorem unfold_parseTargetListAcc_nil (ctx : Context)
    (acc : List (String × ParsedExpression)) :
    parseTargetListAcc [] ctx acc = pure acc := by
  rw [parseTargetListAcc.eq_def]

theorem unfold_parseTargetListAcc_star (name : Option String) (rest : List ResTarget)
    (ctx : Context) (acc : List (String × ParsedExpression)) :
    parseTargetListAcc (.mk name (.ColumnRef .star) :: rest) ctx acc = (do
      let acc2 ← expandAllTables ctx.tables acc
      parseTargetListAcc rest ctx acc2) := by
  rw [parseTargetListAcc.eq_def]

theorem unfold_parseTargetListAcc_tblStar (name : Option String) (tableName : String)
    (rest : List ResTarget) (ctx : Context) (acc : List (String × ParsedExpression)) :
    parseTargetListAcc (.mk name (.ColumnRef (.tblStar tableName)) :: rest) ctx acc =
      (match (getKey ctx.tables tableName).join with
        | none => throw (.unknownTable tableName)
        | some table =>
            parseTargetListAcc rest ctx (expandTableColumns table.columns acc)) := by
  rw [parseTargetListAcc.eq_def]

/-- One `reduce` step of the target list for a non-star target value.  Stated
with the body shared by every non-star case; the hypothesis rules the two
star shapes out. -/
theorem unfold_parseTargetListAcc_other (name : Option String) (val : Expression)
    (rest : List ResTarget) (ctx : Context) (acc : List (String × ParsedExpression))
    (hstar : val ≠ .ColumnRef .star)
    (htblStar : ∀ t, val ≠ .ColumnRef (.tblStar t)) :
    parseTargetListAcc (.mk name val :: rest) ctx acc = (do
      let parsedExpression ← parseExpression val ctx
      let alias2 := match name with
        | some n => some n
        | none => parsedExpression.name
      match alias2 with
      | none => throw .missingAlias
      | some a =>
          if a == "" then throw .missingAlias
          else parseTargetListAcc rest ctx (setKey acc a (parsedExpression.withName (some a)))) := by
  rw [parseTargetListAcc.eq_def]
  cases val with
  | ColumnRef fields =>
      cases fields with
      | star => exact absurd rfl hstar
      | tblStar t => exact absurd rfl (htblStar t)
      | col c => rfl
      | tblCol t c => rfl
      | moreFields => rfl
  | _ => rfl

theorem unfold_parseJoinExpr (jointype : JoinType) (larg rarg : FromItem)
    (parsedTables : List ParsedTable) (ctx : Context) :
    parseJoinExpr jointype larg rarg parsedTables ctx = (do
      let pts1 ← parseFromItem larg parsedTables ctx false
      let pts2 := if jointype == .JOIN_RIGHT || jointype == .JOIN_FULL then
          pts1.map (fun pt => ⟨pt.alias_, pt.columns, true⟩)
        else pts1
      parseFromItem rarg pts2 ctx (jointype == .JOIN_LEFT || jointype == .JOIN_FULL)) := by
  rw [parseJoinExpr.eq_def]

theorem unfold_parseRangeSubselect (alias_ : Alias) (subquery : SelectStmt)
    (parsedTables : List ParsedTable) (ctx : Context) (nullable : Bool) :
    parseRangeSubselect alias_ subquery parsedTables ctx nullable = (do
      let rts ← parseSelectStmt subquery ctx
      pure (parsedTables ++
        [⟨alias_.aliasname, buildColumns (alias_.colnames.getD []) rts, nullable⟩])) := by
  rw [parseRangeSubselect.eq_def]

theorem unfold_parseFromItem_join (jointype : JoinType) (larg rarg : FromItem)
    (parsedTables : List ParsedTable) (ctx : Context) (nullable : Bool) :
    parseFromItem (.JoinExpr jointype larg rarg) parsedTables ctx nullable =
      parseJoinExpr jointype larg rarg parsedTables ctx := by
  rw [parseFromItem.eq_def]

theorem unfold_parseFromItem_sub (alias_ : Alias) (subquery : SelectStmt)
    (parsedTables : List ParsedTable) (ctx : Context) (nullable : Bool) :
    parseFromItem (.RangeSubselect alias_ subquery) parsedTables ctx nullable =
      parseRangeSubselect alias_ subquery parsedTables ctx nullable := by
  rw [parseFromItem.eq_def]

theorem unfold_parseFromItem_rv (rv : RangeVarData) (parsedTables : List ParsedTable)
    (ctx : Context) (nullable : Bool) :
    parseFromItem (.RangeVar rv) parsedTables ctx nullable =
      parseRangeVar rv parsedTables ctx nullable := by
  rw [parseFromItem.eq_def]

theorem unfold_parseFromItems_nil (ctx : Context) : parseFromItems [] ctx = pure [] := by
  rw [parseFromItems.eq_def]

theorem unfold_parseFromItems_cons (item : FromItem) (rest : List FromItem)
    (ctx : Context) :
    parseFromItems (item :: rest) ctx = (do
      let pts ← parseFromItem item [] ctx false
      let more ← parseFromItems rest ctx
      pure (pts ++ more)) := by
  rw [parseFromItems.eq_def]

theorem unfold_parseFromClause (fromItems : List FromItem) (ctx : Context) :
    parseFromClause fromItems ctx = (do
      let parsedTables ← parseFromItems fromItems ctx
      let clonedContext := clone ctx
      pure (⟨scopeTables parsedTables clonedContext.tables, clonedContext.defaultSchema,
        clonedContext.fallbackType, clonedContext.tablesBySchema⟩ : Context)) := by
  rw [parseFromClause.eq_def]

theorem unfold_parseCommonTableExpr (ctename : String)
    (aliascolnames : Option (List String)) (ctequery : Stmt) (ctx : Context) :
    parseCommonTableExpr (.mk ctename aliascolnames ctequery) ctx = (do
      let rts ← parseStmt ctequery ctx
      match getKey ctx.tablesBySchema ctx.defaultSchema with
      | none => throw (.typeError "the default schema map is undefined")
      | some inner =>
          pure (⟨ctx.tables, ctx.defaultSchema, ctx.fallbackType,
            setKey ctx.tablesBySchema ctx.defaultSchema
              (setKey inner ctename ⟨buildColumns (aliascolnames.getD []) rts, false⟩)⟩ :
            Context)) := by
  rw [parseCommonTableExpr.eq_def]

theorem unfold_parseCtes_nil (ctx : Context) : parseCtes [] ctx = pure ctx := by
  rw [parseCtes.eq_def]

theorem unfold_parseCtes_cons (cte : CommonTableExpr) (rest : List CommonTableExpr)
    (ctx : Context) :
    parseCtes (cte :: rest) ctx = (do
      let ctx2 ← parseCommonTableExpr cte ctx
      parseCtes rest ctx2) := by
  rw [parseCtes.eq_def]

theorem unfold_parseWithClause (ctes : List CommonTableExpr) (ctx : Context) :
    parseWithClause (.mk ctes) ctx = parseCtes ctes (clone ctx) := by
  rw [parseWithClause.eq_def]

theorem unfold_parseSelectStmt_values (vls : List (List Expression)) (ctx : Context) :
    parseSelectStmt (.values vls) ctx = (do
      let lists ← parseValuesLists vls ctx
      valuesColumns lists) := by
  rw [parseSelectStmt.eq_def]

theorem unfold_parseSelectStmt_setOp (larg rarg : SelectStmt) (ctx : Context) :
    parseSelectStmt (.setOp larg rarg) ctx = (do
      let lres ← parseSelectStmt larg ctx
      let rres ← parseSelectStmt rarg ctx
      combineSetOp lres rres) := by
  rw [parseSelectStmt.eq_def]

theorem unfold_parseSelectStmt_simple (targetList : Option (List ResTarget))
    (fromClause : Option (List FromItem)) (withClause : Option WithClause)
    (ctx : Context) :
    parseSelectStmt (.simple targetList fromClause withClause) ctx = (do
      let contextWithWith ← match withClause with
        | some w => parseWithClause w ctx
        | none => pure ctx
      let contextWithFrom ← match fromClause with
        | some items => parseFromClause items contextWithWith
        | none => pure contextWithWith
      match targetList with
      | some tl => do
          let acc ← parseTargetListAcc tl contextWithFrom []
          pure (acc.map (fun p => p.2))
      | none => do
          let acc ← parseTargetListAcc [] contextWithFrom []
          pure (acc.map (fun p => p.2))) := by
  rw [parseSelectStmt.eq_def]

theorem unfold_parseValuesLists_nil (ctx : Context) :
    parseValuesLists [] ctx = pure [] := by
  rw [parseValuesLists.eq_def]

theorem unfold_parseValuesLists_cons (row : List Expression)
    (rest : List (List Expression)) (ctx : Context) :
    parseValuesLists (row :: rest) ctx = (do
      let ps ← parseExprList row ctx
      let rs ← parseValuesLists rest ctx
      pure (ps :: rs)) := by
  rw [parseValuesLists.eq_def]

theorem unfold_parseDeleteStmt (relation : RangeVarData)
    (returningList : Option (List ResTarget)) (ctx : Context) :
    parseDeleteStmt relation returningList ctx = (do
      let clonedContext := clone ctx
      let schema := relation.schemaname.getD ctx.defaultSchema
      let tableName := (relation.alias_.map (fun a => a.aliasname)).getD relation.relname
      let table ← match getKey ctx.tablesBySchema schema with
        | none => throw (.typeError "the schema map is undefined")
        | some m => pure (getKey m relation.relname)
      let ctx2 : Context := ⟨setKey clonedContext.tables tableName table,
        clonedContext.defaultSchema, clonedContext.fallbackType,
        clonedContext.tablesBySchema⟩
      match returningList with
      | some rl => do
          let acc ← parseTargetListAcc rl ctx2 []
          pure (acc.map (fun p => p.2))
      | none => do
          let acc ← parseTargetListAcc [] ctx2 []
          pure (acc.map (fun p => p.2))) := by
  rw [parseDeleteStmt.eq_def]

theorem unfold_parseInsertStmt (relation : RangeVarData)
    (returningList : Option (List ResTarget)) (ctx : Context) :
    parseInsertStmt relation returningList ctx = (do
      let clonedContext := clone ctx
      let schema := relation.schemaname.getD ctx.defaultSchema
      let tableName := (relation.alias_.map (fun a => a.aliasname)).getD relation.relname
      let table ← match getKey ctx.tablesBySchema schema with
        | none => throw (.typeError "the schema map is undefined")
        | some m => pure (getKey m relation.relname)
      let ctx2 : Context := ⟨setKey clonedContext.tables tableName table,
        clonedContext.defaultSchema, clonedContext.fallbackType,
        clonedContext.tablesBySchema⟩
      match returningList with
      | some rl => do
          let acc ← parseTargetListAcc rl ctx2 []
          pure (acc.map (fun p => p.2))
      | none => do
          let acc ← parseTargetListAcc [] ctx2 []
          pure (acc.map (fun p => p.2))) := by
  rw [parseInsertStmt.eq_def]

theorem unfold_parseUpdateStmt (relation : RangeVarData)
    (returningList : Option (List ResTarget)) (ctx : Context) :
    parseUpdateStmt relation returningList ctx = (do
      let clonedContext := clone ctx
      let schema := relation.schemaname.getD ctx.defaultSchema
      let tableName := (relation.alias_.map (fun a => a.aliasname)).getD relation.relname
      let table ← match getKey ctx.tablesBySchema schema with
        | none => throw (.typeError "the schema map is undefined")
        | some m => pure (getKey m relation.relname)
      let ctx2 : Context := ⟨setKey clonedContext.tables tableName table,
        clonedContext.defaultSchema, clonedContext.fallbackType,
        clonedContext.tablesBySchema⟩
      match returningList with
      | some rl => do
          let acc ← parseTargetListAcc rl ctx2 []
          pure (acc.map (fun p => p.2))
      | none => do
          let acc ← parseTargetListAcc [] ctx2 []
          pure (acc.map (fun p => p.2))) := by
  rw [parseUpdateStmt.eq_def]

theorem unfold_parseStmt_delete (relation : RangeVarData)
    (returningList : Option (List ResTarget)) (ctx : Context) :
    parseStmt (.DeleteStmt relation returningList) ctx =
      parseDeleteStmt relation returningList ctx := by
  rw [parseStmt.eq_def]

theorem unfold_parseStmt_insert (relation : RangeVarData)
    (returningList : Option (List ResTarget)) (ctx : Context) :
    parseStmt (.InsertStmt relation returningList) ctx =
      parseInsertStmt relation returningList ctx := by
  rw [parseStmt.eq_def]

theorem unfold_parseStmt_select (s : SelectStmt) (ctx : Context) :
    parseStmt (.SelectStmt s) ctx = parseSelectStmt s ctx := by
  rw [parseStmt.eq_def]

theorem unfold_parseStmt_update (relation : RangeVarData)
    (returningList : Option (List ResTarget)) (ctx : Context) :
    parseStmt (.UpdateStmt relation returningList) ctx =
      parseUpdateStmt relation returningList ctx := by
  rw [parseStmt.eq_def]

/- ### Claims -/

/-- C3: For every COALESCE expression, arguments are analyzed in order and
collection stops immediately after the first argument whose analysis is
non-nullable (first conjunct: the arguments after it, `post`, contribute
nothing); whenever analysis succeeds, the collected branches start with the
first argument's own analysis, the result type equals that first branch's
type, the result is nullable iff every collected branch is nullable, and
every part of the rendered union comes from a collected branch or is
`"null"` (second conjunct). -/
theorem claim_C3 (ctx : Context) :
    (∀ (pre : List Expression) (pres : List ParsedExpression) (a : Expression)
        (post : List Expression) (pa : ParsedExpression),
      List.Forall₂ (fun e p => parseExpression e ctx = .ok p ∧ p.nullable = true) pre pres →
      parseExpression a ctx = .ok pa → pa.nullable = false →
      coalesceCollect (pre ++ a :: post) ctx = .ok (pres ++ [pa])) ∧
    (∀ (args : List Expression) (res : ParsedExpression),
      parseExpression (.CoalesceExpr args) ctx = .ok res →
      ∃ (p0 : ParsedExpression) (rest : List ParsedExpression) (e0 : Expression)
        (erest : List Expression),
        coalesceCollect args ctx = .ok (p0 :: rest) ∧
        args = e0 :: erest ∧ parseExpression e0 ctx = .ok p0 ∧
        res = ⟨none, none, (p0 :: rest).all (fun t => t.nullable), none, p0.type,
          some (p0 :: rest)⟩ ∧
        (∀ (mapType : String → String) (s : String), s ∈ renderedTypes res mapType →
          s = "null" ∨ ∃ p ∈ p0 :: rest, s = p.constantValue.getD (mapType p.type))) := by
  constructor
  · intro pre pres a post pa hf ha hnn
    induction hf with
    | nil =>
        simp only [List.nil_append]
        rw [unfold_coalesceCollect_cons, ha]
        simp [hnn]
    | cons h1 h2 ih =>
        simp only [List.cons_append]
        rw [unfold_coalesceCollect_cons, h1.1]
        simp [h1.2, ih]
  · intro args res h
    rw [unfold_pe_coalesce] at h
    cases hc : coalesceCollect args ctx with
    | error e => rw [hc] at h; simp at h
    | ok collected =>
        rw [hc] at h
        simp only [except_bind_ok] at h
        cases collected with
        | nil => simp [parseCoalesceExprResult] at h
        | cons p0 rest =>
            simp only [parseCoalesceExprResult, except_pure_eq, Except.ok.injEq] at h
            cases args with
            | nil =>
                rw [unfold_coalesceCollect_nil] at hc
                simp at hc
            | cons e0 erest =>
                rw [unfold_coalesceCollect_cons] at hc
                cases he : parseExpression e0 ctx with
                | error e => rw [he] at hc; simp at hc
                | ok pe =>
                    rw [he] at hc
                    simp only [except_bind_ok] at hc
                    have hpe : pe = p0 := by
                      by_cases hnb : pe.nullable = true
                      · rw [if_pos hnb] at hc
                        cases hm : coalesceCollect erest ctx with
                        | error e => rw [hm] at hc; simp at hc
                        | ok more =>
                            rw [hm] at hc
                            simp only [except_bind_ok, except_pure_eq,
                              Except.ok.injEq, List.cons.injEq] at hc
                            exact hc.1
                      · rw [if_neg hnb] at hc
                        simp only [except_pure_eq, Except.ok.injEq,
                          List.cons.injEq] at hc
                        exact hc.1
                    refine ⟨p0, rest, e0, erest, rfl, rfl, by rw [he, hpe], h.symm, ?_⟩
                    intro mt s hs
                    rw [← h] at hs
                    simp only [renderedTypes, pe_mk_types, pe_mk_nullable,
                      pe_mk_constantValue, pe_mk_type] at hs
                    rw [mem_unique_iff] at hs
                    by_cases hb : ((p0 :: rest).all (fun t => t.nullable)) = true
                    · rw [if_pos hb] at hs
                      rcases List.mem_append.mp hs with h2 | h2
                      · rcases List.mem_map.mp h2 with ⟨p, hp, rfl⟩
                        exact Or.inr ⟨p, hp, rfl⟩
                      · exact Or.inl (by simpa using h2)
                    · rw [if_neg hb] at hs
                      rcases List.mem_map.mp hs with ⟨p, hp, rfl⟩
                      exact Or.inr ⟨p, hp, rfl⟩

/-- C3 witness: `COALESCE(NULL, 1, <ill-formed>)` — the nullable `NULL` is
collected, collection stops at the non-nullable `1`, and the third argument
(whose analysis would fail) is never reached. -/
theorem claim_C3_witness :
    coalesceCollect [.A_Const .Null, .A_Const (.Integer 1), .ColumnRef .moreFields]
      ⟨[], "public", "string", []⟩ =
      .ok [⟨none, none, true, none, "null", none⟩,
        ⟨some "1", none, false, none, "int4", none⟩] := by
  have h := (claim_C3 ⟨[], "public", "string", []⟩).1
    [.A_Const .Null] [⟨none, none, true, none, "null", none⟩]
    (.A_Const (.Integer 1)) [.ColumnRef .moreFields]
    ⟨some "1", none, false, none, "int4", none⟩
    (List.Forall₂.cons
      ⟨by rw [unfold_pe_aconst]; rfl, rfl⟩ List.Forall₂.nil)
    (by rw [unfold_pe_aconst]; rfl) rfl
  simpa using h

/-- C4: For every CASE expression, the result type is the type of the first
WHEN branch, the branch list is every WHEN result followed by the ELSE result
when present, and the result is nullable iff the ELSE is missing or some
branch is nullable (first conjunct); in particular a CASE without ELSE is
nullable and its rendered union contains `null` (second conjunct). -/
theorem claim_C4 (ctx : Context) :
    (∀ (args : List CaseWhen) (defresult : Option Expression)
        (results : List ParsedExpression) (defaultResult : Option ParsedExpression)
        (res : ParsedExpression),
      parseCaseResults args ctx = .ok results →
      parseOptExpression defresult ctx = .ok defaultResult →
      parseExpression (.CaseExpr args defresult) ctx = .ok res →
      ∃ (r0 : ParsedExpression) (rs : List ParsedExpression) (w0e w0r : Expression)
        (ws : List CaseWhen),
        results = r0 :: rs ∧ args = .mk w0e w0r :: ws ∧
        parseExpression w0r ctx = .ok r0 ∧
        res = ⟨none, none,
          defaultResult.isNone ||
            (results ++ defaultResult.toList).any (fun e => e.nullable),
          none, r0.type, some (results ++ defaultResult.toList)⟩) ∧
    (∀ (args : List CaseWhen) (res : ParsedExpression),
      parseExpression (.CaseExpr args none) ctx = .ok res →
      res.nullable = true ∧
        ∀ mapType : String → String, "null" ∈ renderedTypes res mapType) := by
  have main : ∀ (args : List CaseWhen) (defresult : Option Expression)
      (results : List ParsedExpression) (defaultResult : Option ParsedExpression)
      (res : ParsedExpression),
      parseCaseResults args ctx = .ok results →
      parseOptExpression defresult ctx = .ok defaultResult →
      parseExpression (.CaseExpr args defresult) ctx = .ok res →
      ∃ (r0 : ParsedExpression) (rs : List ParsedExpression) (w0e w0r : Expression)
        (ws : List CaseWhen),
        results = r0 :: rs ∧ args = .mk w0e w0r :: ws ∧
        parseExpression w0r ctx = .ok r0 ∧
        res = ⟨none, none,
          defaultResult.isNone ||
            (results ++ defaultResult.toList).any (fun e => e.nullable),
          none, r0.type, some (results ++ defaultResult.toList)⟩ := by
    intro args defresult results defaultResult res h1 h2 h3
    rw [unfold_pe_caseExpr, h1] at h3
    simp only [except_bind_ok] at h3
    rw [h2] at h3
    simp only [except_bind_ok] at h3
    cases results with
    | nil => simp [parseCaseExprResult] at h3
    | cons r0 rs =>
        cases args with
        | nil =>
            rw [unfold_parseCaseResults_nil] at h1
            simp at h1
        | cons w ws =>
            cases w with
            | mk w0e w0r =>
                rw [unfold_parseCaseResults_cons] at h1
                cases he : parseExpression w0r ctx with
                | error e => rw [he] at h1; simp at h1
                | ok p =>
                    rw [he] at h1
                    simp only [except_bind_ok] at h1
                    cases hps : parseCaseResults ws ctx with
                    | error e => rw [hps] at h1; simp at h1
                    | ok ps =>
                        rw [hps] at h1
                        simp only [except_bind_ok, except_pure_eq,
                          Except.ok.injEq, List.cons.injEq] at h1
                        refine ⟨r0, rs, w0e, w0r, ws, rfl, rfl,
                          by rw [he, h1.1], ?_⟩
                        cases defaultResult with
                        | none =>
                            simp only [parseCaseExprResult, except_pure_eq,
                              Except.ok.injEq] at h3
                            simpa using h3.symm
                        | some dr =>
                            simp only [parseCaseExprResult, except_pure_eq,
                              Except.ok.injEq] at h3
                            simpa using h3.symm
  refine ⟨main, ?_⟩
  intro args res h
  have hcopy := h
  rw [unfold_pe_caseExpr] at hcopy
  cases hr : parseCaseResults args ctx with
  | error e => rw [hr] at hcopy; simp at hcopy
  | ok results =>
      rcases main args none results none res hr (unfold_parseOptExpression_none ctx) h with
        ⟨r0, rs, w0e, w0r, ws, hres, hargs, hw, hform⟩
      constructor
      · rw [hform]; simp
      · intro mt
        rw [hform]
        simp only [renderedTypes, pe_mk_types, pe_mk_nullable]
        rw [mem_unique_iff]
        simp

/-- C4 witness: `CASE WHEN 0 THEN 1 WHEN 0 THEN 2 END` (no ELSE) is nullable
and renders a union containing `null`. -/
theorem claim_C4_witness :
    (⟨none, none, true, none, "int4",
      some [⟨some "1", none, false, none, "int4", none⟩,
        ⟨some "2", none, false, none, "int4", none⟩]⟩ : ParsedExpression).nullable =
      true ∧
    ∀ mapType : String → String, "null" ∈ renderedTypes
      ⟨none, none, true, none, "int4",
        some [⟨some "1", none, false, none, "int4", none⟩,
          ⟨some "2", none, false, none, "int4", none⟩]⟩ mapType := by
  refine (claim_C4 ⟨[], "public", "string", []⟩).2
    [.mk (.A_Const (.Integer 0)) (.A_Const (.Integer 1)),
      .mk (.A_Const (.Integer 0)) (.A_Const (.Integer 2))] _ ?_
  rw [unfold_pe_caseExpr, unfold_parseCaseResults_cons, unfold_pe_aconst]
  simp only [parseAConst, except_pure_eq, except_bind_ok]
  rw [unfold_parseCaseResults_cons, unfold_pe_aconst]
  simp only [parseAConst, except_pure_eq, except_bind_ok]
  rw [unfold_parseCaseResults_nil]
  simp only [except_pure_eq, except_bind_ok]
  rw [unfold_parseOptExpression_none]
  simp [parseCaseExprResult]
  exact ⟨rfl, rfl⟩

/-- C5 counterexample: with two visible tables `t1` and `t2` that both have a
column `c`, the unqualified reference `c` does not raise the unresolved-column
error; `parseColumnRef` silently binds to the first table in insertion order
(`t1`, yielding its `int4` non-nullable column). -/
theorem claim_C5_counterexample :
    parseColumnRef (.col "c")
      ⟨[("t1", some ⟨[("c", ⟨false, "int4"⟩)], false⟩),
        ("t2", some ⟨[("c", ⟨true, "text"⟩)], false⟩)], "public", "string", []⟩ =
      .ok ⟨none, some "c", false, none, "int4", none⟩ ∧
    getKey [("c", (⟨false, "int4"⟩ : Column))] "c" = some ⟨false, "int4"⟩ ∧
    getKey [("c", (⟨true, "text"⟩ : Column))] "c" = some ⟨true, "text"⟩ :=
  ⟨rfl, rfl, rfl⟩

/-- The search loop of `parseColumnRef` skips defined tables that lack the
column. -/
theorem findColumnLoop_skip (c : String) :
    ∀ (pre rest : List (String × Option Table)),
      (∀ p ∈ pre, ∃ t, p.2 = some t ∧ getKey t.columns c = none) →
      findColumnLoop (pre ++ rest) c = findColumnLoop rest c := by
  intro pre
  induction pre with
  | nil => intro rest _; rfl
  | cons p ps ih =>
      intro rest h
      rcases h p (List.mem_cons_self _ _) with ⟨t, ht, hcol⟩
      cases p with
      | mk pname pval =>
          simp only at ht
          rw [ht]
          simp only [List.cons_append, findColumnLoop, hcol]
          exact ih rest (fun q hq => h q (List.mem_cons_of_mem _ hq))

/-- C5 amended: unqualified column resolution walks the visible tables in
insertion order and the first table containing the column wins (first
conjunct); only when no visible table has the column does analysis raise the
unresolved-column error (second conjunct). -/
theorem claim_C5_amended (ctx : Context) :
    (∀ (pre : List (String × Option Table)) (tname : String) (tbl : Table)
        (post : List (String × Option Table)) (c : String) (col : Column),
      ctx.tables = pre ++ (tname, some tbl) :: post →
      (∀ p ∈ pre, ∃ t, p.2 = some t ∧ getKey t.columns c = none) →
      getKey tbl.columns c = some col →
      parseColumnRef (.col c) ctx =
        .ok ⟨none, some c, col.nullable, none, col.type, none⟩) ∧
    (∀ c : String,
      (∀ p ∈ ctx.tables, ∃ t, p.2 = some t ∧ getKey t.columns c = none) →
      parseColumnRef (.col c) ctx = .error (.unknownColumn c)) := by
  constructor
  · intro pre tname tbl post c col htab hpre hcol
    have hloop : findColumnLoop ctx.tables c = pure (some col) := by
      rw [htab, findColumnLoop_skip c pre _ hpre]
      simp [findColumnLoop, hcol]
    simp only [parseColumnRef, hloop, except_pure_eq, except_bind_ok]
  · intro c hall
    have hloop : findColumnLoop ctx.tables c = pure none := by
      have := findColumnLoop_skip c ctx.tables [] hall
      simpa using this
    simp only [parseColumnRef, hloop, except_pure_eq, except_bind_ok]
    rfl

/-- C5 amended witness: on the ambiguous two-table scope, the first conjunct
resolves `c` to `t1`'s column. -/
theorem claim_C5_amended_witness :
    parseColumnRef (.col "c")
      ⟨[("t1", some ⟨[("c", ⟨false, "int4"⟩)], false⟩),
        ("t2", some ⟨[("c", ⟨true, "text"⟩)], false⟩)], "public", "other", []⟩ =
      .ok ⟨none, some "c", false, none, "int4", none⟩ := by
  have h := (claim_C5_amended
    ⟨[("t1", some ⟨[("c", ⟨false, "int4"⟩)], false⟩),
      ("t2", some ⟨[("c", ⟨true, "text"⟩)], false⟩)], "public", "other", []⟩).1
    [] "t1" ⟨[("c", ⟨false, "int4"⟩)], false⟩
    [("t2", some ⟨[("c", ⟨true, "text"⟩)], false⟩)] "c" ⟨false, "int4"⟩
    rfl (by simp) rfl
  simpa using h

/-- C6: array subscripting.  With the subscripted argument analyzed to an
array type: a single slice subscript keeps the array type and is nullable iff
the argument, the lower bound, or the upper bound is (first conjunct); a
single element subscript yields the element type and is always nullable,
whatever the nullability of argument and index (second conjunct); a
json-typed argument yields `any`, nullable, for any subscript list (third
conjunct); more than one subscript on an array-typed argument raises the
unsupported-construct error (fourth conjunct). -/
theorem claim_C6 (ctx : Context) :
    (∀ (arg : Expression) (pe : ParsedExpression) (lidx uidx : Option Expression)
        (lN uN : Bool),
      parseExpression arg ctx = .ok pe → isArray pe.type = true →
      parseIdxNullable lidx ctx = .ok lN → parseIdxNullable uidx ctx = .ok uN →
      parseExpression (.A_Indirection arg [.mk true lidx uidx]) ctx =
        .ok (mkPE (pe.nullable || lN || uN) pe.type)) ∧
    (∀ (arg : Expression) (pe : ParsedExpression) (lidx uidx : Option Expression),
      parseExpression arg ctx = .ok pe → isArray pe.type = true →
      parseExpression (.A_Indirection arg [.mk false lidx uidx]) ctx =
        .ok (mkPE true (getElementType pe.type))) ∧
    (∀ (arg : Expression) (pe : ParsedExpression) (indirection : List AIndices),
      parseExpression arg ctx = .ok pe → isJson pe.type = true →
      parseExpression (.A_Indirection arg indirection) ctx = .ok (mkPE true "any")) ∧
    (∀ (arg : Expression) (pe : ParsedExpression) (indirection : List AIndices),
      parseExpression arg ctx = .ok pe → isArray pe.type = true →
      indirection.length > 1 →
      parseExpression (.A_Indirection arg indirection) ctx =
        .error (.unsupported "subscript expressions for multidimensional arrays")) := by
  refine ⟨?_, ?_, ?_, ?_⟩
  · intro arg pe lidx uidx lN uN ha harr hl hu
    rw [unfold_pe_aindirection, unfold_parseAIndirection, ha]
    simp only [except_bind_ok]
    rw [if_pos harr]
    simp only [List.length_cons, List.length_nil, gt_iff_lt, Nat.lt_irrefl,
      if_false]
    by_cases hn : pe.nullable = true
    · simp [hn]
    · simp only [Bool.not_eq_true] at hn
      rw [hn]
      simp only [Bool.false_or]
      by_cases hln : lN = true
      · rw [hl]
        simp [hln]
      · simp only [Bool.not_eq_true] at hln
        rw [hl]
        subst hln
        simp only [Bool.false_or]
        rw [hu]
        simp
  · intro arg pe lidx uidx ha harr
    rw [unfold_pe_aindirection, unfold_parseAIndirection, ha]
    simp only [except_bind_ok]
    rw [if_pos harr]
    simp
  · intro arg pe indirection ha hj
    have harr : isArray pe.type = false := by
      have : pe.type = "json" ∨ pe.type = "jsonb" := by
        simpa [isJson] using hj
      rcases this with h | h <;> rw [isArray, h] <;> rfl
    rw [unfold_pe_aindirection, unfold_parseAIndirection, ha]
    simp only [except_bind_ok]
    rw [if_neg (by simp [harr]), if_pos hj]
    rfl
  · intro arg pe indirection ha harr hlen
    rw [unfold_pe_aindirection, unfold_parseAIndirection, ha]
    simp only [except_bind_ok]
    rw [if_pos harr, if_pos hlen]
    rfl

/-- C6 witness: for a non-nullable `text[]` argument, the slice `[1:2]` stays
`text[]` and non-nullable, the element subscript `[1]` is `string`-typed and
nullable, a `json` argument yields `any`, and a two-subscript chain on the
array is rejected. -/
theorem claim_C6_witness :
    parseExpression (.A_Indirection
        (.TypeCast (.A_Const (.StringVal "x")) ⟨some [], some ["text"]⟩)
        [.mk true (some (.A_Const (.Integer 1))) (some (.A_Const (.Integer 2)))])
      ⟨[], "public", "string", []⟩ = .ok (mkPE false "text[]") ∧
    parseExpression (.A_Indirection
        (.TypeCast (.A_Const (.StringVal "x")) ⟨some [], some ["text"]⟩)
        [.mk false (some (.A_Const (.Integer 1))) none])
      ⟨[], "public", "string", []⟩ = .ok (mkPE true "text") ∧
    parseExpression (.A_Indirection
        (.TypeCast (.A_Const (.StringVal "j")) ⟨none, some ["json"]⟩)
        [.mk false (some (.A_Const (.Integer 1))) none])
      ⟨[], "public", "string", []⟩ = .ok (mkPE true "any") ∧
    parseExpression (.A_Indirection
        (.TypeCast (.A_Const (.StringVal "x")) ⟨some [], some ["text"]⟩)
        [.mk false none none, .mk false none none])
      ⟨[], "public", "string", []⟩ =
      .error (.unsupported "subscript expressions for multidimensional arrays") := by
  have harg : parseExpression
      (.TypeCast (.A_Const (.StringVal "x")) ⟨some [], some ["text"]⟩)
      ⟨[], "public", "string", []⟩ = .ok ⟨none, none, false, none, "text[]", none⟩ := by
    rw [unfold_pe_typeCast, unfold_pe_aconst]
    simp [parseAConst, parseTypeCastResult]
  have hargJ : parseExpression
      (.TypeCast (.A_Const (.StringVal "j")) ⟨none, some ["json"]⟩)
      ⟨[], "public", "string", []⟩ =
      .ok ⟨some "\"j\"", none, false, none, "json", none⟩ := by
    rw [unfold_pe_typeCast, unfold_pe_aconst]
    simp [parseAConst, parseTypeCastResult]
  refine ⟨?_, ?_, ?_, ?_⟩
  · have h := (claim_C6 ⟨[], "public", "string", []⟩).1 _ _
      (some (.A_Const (.Integer 1))) (some (.A_Const (.Integer 2))) false false harg rfl
      (by rw [unfold_parseIdxNullable_some, unfold_pe_aconst]; simp [parseAConst])
      (by rw [unfold_parseIdxNullable_some, unfold_pe_aconst]; simp [parseAConst])
    simpa using h
  · have h := (claim_C6 ⟨[], "public", "string", []⟩).2.1 _ _
      (some (.A_Const (.Integer 1))) none harg rfl
    simpa [getElementType, isArray] using h
  · exact (claim_C6 ⟨[], "public", "string", []⟩).2.2.1 _ _ _ hargJ rfl
  · exact (claim_C6 ⟨[], "public", "string", []⟩).2.2.2 _ _ _ harg rfl (by simp)

theorem unique_single {α : Type} [DecidableEq α] (x : α) : unique [x] = [x] := by
  simp [unique]

theorem intercalate_single (sep x : String) : String.intercalate sep [x] = x := by
  simp [String.intercalate, String.intercalate.go]

/-- A single-expression target list with an explicit non-empty alias renders
exactly the expression's own formatting under that name. -/
theorem render_const_target (ctx : Context) (nm : String) (hnm : nm ≠ "")
    (e : Expression) (pe : ParsedExpression)
    (he : parseExpression e ctx = .ok pe)
    (hstar : e ≠ .ColumnRef .star) (htbl : ∀ t, e ≠ .ColumnRef (.tblStar t)) :
    (parseTargetList [.mk (some nm) e] ctx).map
      (fun rts => rts.map (fun rt => formatExpression rt defaultFormatFunc defaultMapType)) =
      .ok [formatExpression (pe.withName (some nm)) defaultFormatFunc defaultMapType] := by
  have hne : (nm == "") = false := by simpa using hnm
  rw [parseTargetList, unfold_parseTargetListAcc_other _ _ _ _ _ hstar htbl, he]
  simp only [except_bind_ok, hne]
  simp [setKey, unfold_parseTargetListAcc_nil]

/-- C7: for `SELECT <literal> x`, the rendered column type is exactly the
literal — integers and floats as written, strings double-quoted, booleans
(which the parser presents as casts of `"t"`/`"f"` to `bool`) as
`true`/`false` — with no widening to the underlying `int4`/`float4`/`text`
type, and a bare NULL renders as `null`. -/
theorem claim_C7 (ctx : Context) (nm : String) (hnm : nm ≠ "") :
    (∀ i : Int,
      (parseTargetList [.mk (some nm) (.A_Const (.Integer i))] ctx).map
        (fun rts => rts.map
          (fun rt => formatExpression rt defaultFormatFunc defaultMapType)) =
        .ok [defaultFormatFunc nm (toString i)]) ∧
    (∀ f : String,
      (parseTargetList [.mk (some nm) (.A_Const (.Float f))] ctx).map
        (fun rts => rts.map
          (fun rt => formatExpression rt defaultFormatFunc defaultMapType)) =
        .ok [defaultFormatFunc nm f]) ∧
    (∀ s : String,
      (parseTargetList [.mk (some nm) (.A_Const (.StringVal s))] ctx).map
        (fun rts => rts.map
          (fun rt => formatExpression rt defaultFormatFunc defaultMapType)) =
        .ok [defaultFormatFunc nm ("\"" ++ s ++ "\"")]) ∧
    ((parseTargetList
        [.mk (some nm) (.TypeCast (.A_Const (.StringVal "t"))
          ⟨none, some ["pg_catalog", "bool"]⟩)] ctx).map
        (fun rts => rts.map
          (fun rt => formatExpression rt defaultFormatFunc defaultMapType)) =
        .ok [defaultFormatFunc nm "true"]) ∧
    ((parseTargetList
        [.mk (some nm) (.TypeCast (.A_Const (.StringVal "f"))
          ⟨none, some ["pg_catalog", "bool"]⟩)] ctx).map
        (fun rts => rts.map
          (fun rt => formatExpression rt defaultFormatFunc defaultMapType)) =
        .ok [defaultFormatFunc nm "false"]) ∧
    ((parseTargetList [.mk (some nm) (.A_Const .Null)] ctx).map
        (fun rts => rts.map
          (fun rt => formatExpression rt defaultFormatFunc defaultMapType)) =
        .ok [defaultFormatFunc nm "null"]) := by
  refine ⟨?_, ?_, ?_, ?_, ?_, ?_⟩
  · intro i
    rw [render_const_target ctx nm hnm _ ⟨some (toString i), none, false, none, "int4", none⟩
      (by rw [unfold_pe_aconst]; rfl) (by simp) (by simp)]
    simp [formatExpression, renderedTypes, unique_single, intercalate_single]
  · intro f
    rw [render_const_target ctx nm hnm _ ⟨some f, none, false, none, "float4", none⟩
      (by rw [unfold_pe_aconst]; rfl) (by simp) (by simp)]
    simp [formatExpression, renderedTypes, unique_single, intercalate_single]
  · intro s
    rw [render_const_target ctx nm hnm _
      ⟨some ("\"" ++ s ++ "\""), none, false, none, "text", none⟩
      (by rw [unfold_pe_aconst]; rfl) (by simp) (by simp)]
    simp [formatExpression, renderedTypes, unique_single, intercalate_single]
  · rw [render_const_target ctx nm hnm _ ⟨some "true", none, false, none, "bool", none⟩
      (by rw [unfold_pe_typeCast, unfold_pe_aconst]; simp [parseAConst, parseTypeCastResult])
      (by simp) (by simp)]
    simp [formatExpression, renderedTypes, unique_single, intercalate_single]
  · rw [render_const_target ctx nm hnm _ ⟨some "false", none, false, none, "bool", none⟩
      (by rw [unfold_pe_typeCast, unfold_pe_aconst]; simp [parseAConst, parseTypeCastResult])
      (by simp) (by simp)]
    simp [formatExpression, renderedTypes, unique_single, intercalate_single]
  · rw [render_const_target ctx nm hnm _ ⟨none, none, true, none, "null", none⟩
      (by rw [unfold_pe_aconst]; rfl) (by simp) (by simp)]
    have hr : ∀ n : Option String,
        renderedTypes ⟨none, n, true, none, "null", none⟩ defaultMapType = ["null"] :=
      fun n => rfl
    simp [formatExpression, hr, intercalate_single]

/-- C7 witness: `SELECT 42 x`, `SELECT 4.2 x`, `SELECT 'hi' x`, `SELECT true
x`, `SELECT false x`, `SELECT NULL x` render the literal types. -/
theorem claim_C7_witness :
    (parseTargetList [.mk (some "x") (.A_Const (.Integer 42))]
        ⟨[], "public", "string", []⟩).map
      (fun rts => rts.map
        (fun rt => formatExpression rt defaultFormatFunc defaultMapType)) =
      .ok ["\"x\": 42,"] ∧
    (parseTargetList [.mk (some "x") (.A_Const (.StringVal "hi"))]
        ⟨[], "public", "string", []⟩).map
      (fun rts => rts.map
        (fun rt => formatExpression rt defaultFormatFunc defaultMapType)) =
      .ok ["\"x\": \"hi\","] ∧
    (parseTargetList [.mk (some "x") (.A_Const .Null)]
        ⟨[], "public", "string", []⟩).map
      (fun rts => rts.map
        (fun rt => formatExpression rt defaultFormatFunc defaultMapType)) =
      .ok ["\"x\": null,"] := by
  have h := claim_C7 ⟨[], "public", "string", []⟩ "x" (by decide)
  refine ⟨?_, ?_, ?_⟩
  · have := h.1 42
    simpa using this
  · have := h.2.2.1 "hi"
    simpa using this
  · have := h.2.2.2.2.2
    simpa using this

/-- C10: an empty result-target list renders the sentinel empty object type
`\x7b[K in any]: never\x7d` — not an empty object literal and not an error
(first conjunct); in particular a DELETE, INSERT, or UPDATE without a
RETURNING clause produces the empty target list, and the format of its
analysis is exactly the sentinel (second conjunct). -/
theorem claim_C10 (formatFunc : String → String → String) (mapType : String → String) :
    format [] formatFunc mapType = .ok "\x7b[K in any]: never\x7d" ∧
    (∀ (relation : RangeVarData) (ctx : Context) (m : List (String × Table)),
      getKey ctx.tablesBySchema (relation.schemaname.getD ctx.defaultSchema) = some m →
      parseStmt (.DeleteStmt relation none) ctx = .ok [] ∧
      parseStmt (.InsertStmt relation none) ctx = .ok [] ∧
      parseStmt (.UpdateStmt relation none) ctx = .ok [] ∧
      (parseStmt (.DeleteStmt relation none) ctx >>=
        fun rts => format rts formatFunc mapType) = .ok "\x7b[K in any]: never\x7d") := by
  have hfmt : format [] formatFunc mapType = .ok "\x7b[K in any]: never\x7d" := rfl
  refine ⟨hfmt, ?_⟩
  intro relation ctx m hm
  have hdel : parseStmt (.DeleteStmt relation none) ctx = .ok [] := by
    rw [unfold_parseStmt_delete, unfold_parseDeleteStmt]
    simp [hm, unfold_parseTargetListAcc_nil]
  have hins : parseStmt (.InsertStmt relation none) ctx = .ok [] := by
    rw [unfold_parseStmt_insert, unfold_parseInsertStmt]
    simp [hm, unfold_parseTargetListAcc_nil]
  have hupd : parseStmt (.UpdateStmt relation none) ctx = .ok [] := by
    rw [unfold_parseStmt_update, unfold_parseUpdateStmt]
    simp [hm, unfold_parseTargetListAcc_nil]
  exact ⟨hdel, hins, hupd, by rw [hdel]; simp [hfmt]⟩

/-- C10 witness: `DELETE FROM t` (no RETURNING) against a catalog whose
default schema map exists renders the sentinel. -/
theorem claim_C10_witness :
    (parseStmt (.DeleteStmt ⟨none, "t", none⟩ none)
        ⟨[], "public", "string", [("public", [])]⟩ >>=
      fun rts => format rts defaultFormatFunc defaultMapType) =
      .ok "\x7b[K in any]: never\x7d" :=
  ((claim_C10 defaultFormatFunc defaultMapType).2
    ⟨none, "t", none⟩ ⟨[], "public", "string", [("public", [])]⟩ [] rfl).2.2.2

/-- C8: for every source, `generate` returns exactly one of results or error
(first two conjuncts); a successful query yields one rendered string per
statement, in order, each the format of that statement's analysis (third
conjunct); if any statement's analysis or formatting fails, the value is the
error with no partial result list (fourth conjunct); a parser failure is
returned the same way (fifth conjunct); and every `generate` call on the same
generator analyzes against the same startup context, so other queries are
unaffected (sixth conjunct). -/
theorem claim_C8 (ctx : Context) (formatFunc : String → String → String)
    (mapType : String → String) :
    (∀ pr, (∃ rs, parseQuery pr ctx formatFunc mapType = .results rs) ∨
      (∃ e, parseQuery pr ctx formatFunc mapType = .error e)) ∧
    (∀ pr rs e, parseQuery pr ctx formatFunc mapType = .results rs →
      parseQuery pr ctx formatFunc mapType = .error e → False) ∧
    (∀ stmts rs, parseQuery (.ok stmts) ctx formatFunc mapType = .results rs →
      List.Forall₂
        (fun s r => (parseRawStmt s ctx >>= fun rts => format rts formatFunc mapType) =
          .ok r) stmts rs) ∧
    (∀ stmts e, parseQuery (.ok stmts) ctx formatFunc mapType = .error e →
      ∃ s ∈ stmts,
        (parseRawStmt s ctx >>= fun rts => format rts formatFunc mapType) = .error e) ∧
    (∀ e, parseQuery (.error e) ctx formatFunc mapType = .error e) ∧
    (∀ pr, generate ctx formatFunc mapType pr = parseQuery pr ctx formatFunc mapType) := by
  have hok : ∀ stmts l, formatRawStmts stmts ctx formatFunc mapType = .ok l →
      List.Forall₂
        (fun s r => (parseRawStmt s ctx >>= fun rts => format rts formatFunc mapType) =
          .ok r) stmts l := by
    intro stmts
    induction stmts with
    | nil =>
        intro l h
        rw [formatRawStmts] at h
        simp at h
        rw [h]
        exact List.Forall₂.nil
    | cons s rest ih =>
        intro l h
        rw [formatRawStmts] at h
        cases hp : parseRawStmt s ctx with
        | error e => rw [hp] at h; simp at h
        | ok rts =>
            rw [hp] at h
            simp only [except_bind_ok] at h
            cases hf : format rts formatFunc mapType with
            | error e => rw [hf] at h; simp at h
            | ok str =>
                rw [hf] at h
                simp only [except_bind_ok] at h
                cases hrest : formatRawStmts rest ctx formatFunc mapType with
                | error e => rw [hrest] at h; simp at h
                | ok more =>
                    rw [hrest] at h
                    simp only [except_bind_ok, except_pure_eq, Except.ok.injEq] at h
                    rw [← h]
                    exact List.Forall₂.cons (by rw [hp]; simp [hf]) (ih more hrest)
  have herr : ∀ stmts e, formatRawStmts stmts ctx formatFunc mapType = .error e →
      ∃ s ∈ stmts,
        (parseRawStmt s ctx >>= fun rts => format rts formatFunc mapType) = .error e := by
    intro stmts
    induction stmts with
    | nil => intro e h; rw [formatRawStmts] at h; simp at h
    | cons s rest ih =>
        intro e h
        rw [formatRawStmts] at h
        cases hp : parseRawStmt s ctx with
        | error e2 =>
            rw [hp] at h
            simp only [except_bind_err, Except.error.injEq] at h
            exact ⟨s, List.mem_cons_self _ _, by rw [hp]; simp [h]⟩
        | ok rts =>
            rw [hp] at h
            simp only [except_bind_ok] at h
            cases hf : format rts formatFunc mapType with
            | error e2 =>
                rw [hf] at h
                simp only [except_bind_err, Except.error.injEq] at h
                exact ⟨s, List.mem_cons_self _ _, by rw [hp]; simp [hf, h]⟩
            | ok str =>
                rw [hf] at h
                simp only [except_bind_ok] at h
                cases hrest : formatRawStmts rest ctx formatFunc mapType with
                | error e2 =>
                    rw [hrest] at h
                    simp only [except_bind_err, Except.error.injEq] at h
                    rcases ih e2 hrest with ⟨s2, hs2, hval⟩
                    exact ⟨s2, List.mem_cons_of_mem _ hs2, by rw [hval, h]⟩
                | ok more => rw [hrest] at h; simp at h
  refine ⟨?_, ?_, ?_, ?_, ?_, ?_⟩
  · intro pr
    rw [parseQuery]
    cases hx : (pr >>= fun rawStmts => formatRawStmts rawStmts ctx formatFunc mapType :
        Except Err (List String)) with
    | ok l => exact Or.inl ⟨l, rfl⟩
    | error e => exact Or.inr ⟨e, rfl⟩
  · intro pr rs e h1 h2
    rw [h1] at h2
    exact GenerateResult.noConfusion h2
  · intro stmts rs h
    rw [parseQuery] at h
    simp only [except_bind_ok] at h
    cases hx : formatRawStmts stmts ctx formatFunc mapType with
    | ok l =>
        rw [hx] at h
        cases h
        exact hok stmts rs hx
    | error e => rw [hx] at h; cases h
  · intro stmts e h
    rw [parseQuery] at h
    simp only [except_bind_ok] at h
    cases hx : formatRawStmts stmts ctx formatFunc mapType with
    | ok l => rw [hx] at h; cases h
    | error e2 =>
        rw [hx] at h
        cases h
        exact herr stmts e hx
  · intro e
    rw [parseQuery]
    rfl
  · intro pr
    rfl

/-- C8 witness: an alias-less literal select is returned as the error alone
(the failing statement is exhibited by the fourth conjunct), and a parse
failure propagates through the same boundary. -/
theorem claim_C8_witness :
    (∃ s ∈ [RawStmt.mk (.SelectStmt (.simple (some [.mk none (.A_Const (.Integer 2))])
        none none))],
      (parseRawStmt s ⟨[], "public", "string", []⟩ >>=
        fun rts => format rts defaultFormatFunc defaultMapType) =
        .error .missingAlias) ∧
    parseQuery (.error (.typeError "parse failure")) ⟨[], "public", "string", []⟩
      defaultFormatFunc defaultMapType = .error (.typeError "parse failure") := by
  constructor
  · refine (claim_C8 ⟨[], "public", "string", []⟩ defaultFormatFunc defaultMapType).2.2.2.1
      _ .missingAlias ?_
    rw [parseQuery]
    simp only [except_bind_ok]
    rw [formatRawStmts]
    rw [parseRawStmt, unfold_parseStmt_select, unfold_parseSelectStmt_simple]
    simp only [except_pure_eq, except_bind_ok]
    rw [unfold_parseTargetListAcc_other none (.A_Const (.Integer 2)) []
      ⟨[], "public", "string", []⟩ [] (by simp) (by simp)]
    rw [unfold_pe_aconst]
    simp [parseAConst]
  · exact (claim_C8 ⟨[], "public", "string", []⟩ defaultFormatFunc
      defaultMapType).2.2.2.2.1 (.typeError "parse failure")

/-- `parseCommonTableExpr` leaves the scoped tables, the schema names, and
every catalog entry other than the default schema's untouched: one CTE writes
only under the default schema of the context it was handed. -/
theorem parseCommonTableExpr_frame (cte : CommonTableExpr) (ctx ctx2 : Context)
    (h : parseCommonTableExpr cte ctx = .ok ctx2) :
    ctx2.tables = ctx.tables ∧ ctx2.defaultSchema = ctx.defaultSchema ∧
    ctx2.fallbackType = ctx.fallbackType ∧
    ∀ s, s ≠ ctx.defaultSchema →
      getKey ctx2.tablesBySchema s = getKey ctx.tablesBySchema s := by
  cases cte with
  | mk ctename aliascolnames ctequery =>
      rw [unfold_parseCommonTableExpr] at h
      cases hp : parseStmt ctequery ctx with
      | error e => rw [hp] at h; simp at h
      | ok rts =>
          rw [hp] at h
          simp only [except_bind_ok] at h
          cases hg : getKey ctx.tablesBySchema ctx.defaultSchema with
          | none => rw [hg] at h; simp at h
          | some inner =>
              rw [hg] at h
              simp only [except_pure_eq, Except.ok.injEq] at h
              subst h
              refine ⟨rfl, rfl, rfl, ?_⟩
              intro s hs
              exact getKey_setKey_ne _ _ _ _ hs

/-- The CTE loop preserves the scoped tables, the schema names, and every
catalog entry outside the default schema. -/
theorem parseCtes_frame (ctes : List CommonTableExpr) :
    ∀ (ctx ctx' : Context), parseCtes ctes ctx = .ok ctx' →
    ctx'.tables = ctx.tables ∧ ctx'.defaultSchema = ctx.defaultSchema ∧
    ctx'.fallbackType = ctx.fallbackType ∧
    ∀ s, s ≠ ctx.defaultSchema →
      getKey ctx'.tablesBySchema s = getKey ctx.tablesBySchema s := by
  induction ctes with
  | nil =>
      intro ctx ctx' h
      rw [unfold_parseCtes_nil] at h
      simp only [except_pure_eq, Except.ok.injEq] at h
      subst h
      exact ⟨rfl, rfl, rfl, fun s _ => rfl⟩
  | cons cte rest ih =>
      intro ctx ctx' h
      rw [unfold_parseCtes_cons] at h
      cases hc : parseCommonTableExpr cte ctx with
      | error e => rw [hc] at h; simp at h
      | ok ctx2 =>
          rw [hc] at h
          simp only [except_bind_ok] at h
          obtain ⟨ht, hd, hf, hg⟩ := parseCommonTableExpr_frame cte ctx ctx2 hc
          obtain ⟨ht2, hd2, hf2, hg2⟩ := ih ctx2 ctx' h
          refine ⟨ht2.trans ht, hd2.trans hd, hf2.trans hf, ?_⟩
          intro s hs
          have hs2 : s ≠ ctx2.defaultSchema := by rw [hd]; exact hs
          exact (hg2 s hs2).trans (hg s hs)

/-- C9: analysis never mutates the shared catalog or the outer context.  In
this pure rendering of the code's clone-then-mutate discipline: a FROM clause
returns a context whose catalog and schema fields are the caller's and whose
scope is built purely on a clone's tables (first conjunct); a WITH clause
returns a context whose scope is the clone's, whose schema fields are the
caller's, and whose catalog differs at most at the default schema's entry of
the clone — every other catalog entry is the caller's (second conjunct); each
statement of a query is analyzed against the same unchanging context (third
conjunct); and every `generate` call analyzes against the same startup
context, so subsequent queries see the same catalog (fourth conjunct). -/
theorem claim_C9 :
    (∀ (items : List FromItem) (ctx ctx' : Context),
      parseFromClause items ctx = .ok ctx' →
      ctx'.tablesBySchema = ctx.tablesBySchema ∧
      ctx'.defaultSchema = ctx.defaultSchema ∧
      ctx'.fallbackType = ctx.fallbackType ∧
      ∃ pts, parseFromItems items ctx = .ok pts ∧
        ctx'.tables = scopeTables pts (clone ctx).tables) ∧
    (∀ (w : WithClause) (ctx ctx' : Context),
      parseWithClause w ctx = .ok ctx' →
      ctx'.defaultSchema = ctx.defaultSchema ∧
      ctx'.fallbackType = ctx.fallbackType ∧
      ctx'.tables = (clone ctx).tables ∧
      ∀ s, s ≠ ctx.defaultSchema →
        getKey ctx'.tablesBySchema s = getKey ctx.tablesBySchema s) ∧
    (∀ (rs : RawStmt) (rest : List RawStmt) (ctx : Context)
        (formatFunc : String → String → String) (mapType : String → String),
      formatRawStmts (rs :: rest) ctx formatFunc mapType = (do
        let rts ← parseRawStmt rs ctx
        let s ← format rts formatFunc mapType
        let more ← formatRawStmts rest ctx formatFunc mapType
        pure (s :: more))) ∧
    (∀ (ctx : Context) (formatFunc : String → String → String)
        (mapType : String → String) (pr : Except Err (List RawStmt)),
      generate ctx formatFunc mapType pr = parseQuery pr ctx formatFunc mapType) := by
  refine ⟨?_, ?_, ?_, ?_⟩
  · intro items ctx ctx' h
    rw [unfold_parseFromClause] at h
    cases hp : parseFromItems items ctx with
    | error e => rw [hp] at h; simp at h
    | ok pts =>
        rw [hp] at h
        simp only [except_bind_ok, except_pure_eq, Except.ok.injEq] at h
        subst h
        exact ⟨rfl, rfl, rfl, pts, rfl, rfl⟩
  · intro w ctx ctx' h
    cases w with
    | mk ctes =>
        rw [unfold_parseWithClause] at h
        obtain ⟨ht, hd, hf, hg⟩ := parseCtes_frame ctes (clone ctx) ctx' h
        exact ⟨hd, hf, ht, fun s hs => hg s hs⟩
  · intro rs rest ctx formatFunc mapType
    rfl
  · intro ctx formatFunc mapType pr
    rfl

/-- Splitting a `Forall₂` whose left list is an append. -/
theorem forall₂_append_split {α β : Type} {R : α → β → Prop} :
    ∀ (l₁ l₂ : List α) (u : List β), List.Forall₂ R (l₁ ++ l₂) u →
    ∃ u₁ u₂, u = u₁ ++ u₂ ∧ List.Forall₂ R l₁ u₁ ∧ List.Forall₂ R l₂ u₂ := by
  intro l₁
  induction l₁ with
  | nil => intro l₂ u h; exact ⟨[], u, rfl, List.Forall₂.nil, h⟩
  | cons x xs ih =>
      intro l₂ u h
      cases h with
      | cons hxy hrest =>
          obtain ⟨u₁, u₂, rfl, h1, h2⟩ := ih l₂ _ hrest
          exact ⟨_ :: u₁, u₂, rfl, List.Forall₂.cons hxy h1, h2⟩

/-- A set-operation tree always has at least one operand leaf (size-bounded
induction form). -/
theorem setLeaves_ne_nil_aux : ∀ (n : Nat) (q : SelectStmt), sizeOf q ≤ n →
    setLeaves q ≠ [] := by
  intro n
  induction n with
  | zero =>
      intro q hle
      exfalso
      cases q <;> (simp at hle <;> omega)
  | succ n ih =>
      intro q hle
      cases q with
      | setOp l r =>
          simp at hle
          intro hcon
          have h2 := List.append_eq_nil.mp hcon
          exact ih l (by omega) h2.1
      | simple tl fc wc => simp [setLeaves]
      | values v => simp [setLeaves]

/-- A set-operation tree always has at least one operand leaf. -/
theorem setLeaves_ne_nil (q : SelectStmt) : setLeaves q ≠ [] :=
  setLeaves_ne_nil_aux (sizeOf q) q le_rfl

/-- Pointwise description of `combineSetOp`: one output column per left
column, pairing positionally with the right columns, name and type from the
left, nullability OR, and the two sides' variant lists concatenated. -/
theorem combineSetOp_spec :
    ∀ (ls rs res : List ParsedExpression), combineSetOp ls rs = .ok res →
    res.length = ls.length ∧
    ∀ (j : Nat) (pe : ParsedExpression), res[j]? = some pe →
      ∃ lp rp, ls[j]? = some lp ∧ rs[j]? = some rp ∧
        pe = ⟨none, lp.name, lp.nullable || rp.nullable,
          some (variantList lp ++ variantList rp), lp.type, none⟩ := by
  intro ls
  induction ls with
  | nil =>
      intro rs res h
      simp only [combineSetOp, except_pure_eq, Except.ok.injEq] at h
      subst h
      refine ⟨rfl, ?_⟩
      intro j pe hj
      simp at hj
  | cons lp ls ih =>
      intro rs res h
      cases rs with
      | nil => simp [combineSetOp] at h
      | cons rp rs2 =>
          simp only [combineSetOp] at h
          cases hrest : combineSetOp ls rs2 with
          | error e => rw [hrest] at h; simp at h
          | ok rest =>
              rw [hrest] at h
              simp only [except_bind_ok, except_pure_eq, Except.ok.injEq] at h
              subst h
              obtain ⟨hlen, hspec⟩ := ih rs2 rest hrest
              refine ⟨by simp [hlen], ?_⟩
              intro j pe hj
              cases j with
              | zero =>
                  simp only [List.getElem?_cons_zero, Option.some.injEq] at hj
                  exact ⟨lp, rp, by simp, by simp, hj.symm⟩
              | succ jj =>
                  simp only [List.getElem?_cons_succ] at hj
                  obtain ⟨lp2, rp2, h1, h2, h3⟩ := hspec jj pe hj
                  exact ⟨lp2, rp2, by rw [List.getElem?_cons_succ]; exact h1,
                    by rw [List.getElem?_cons_succ]; exact h2, h3⟩

/-- The single-leaf (non-set-operation) case of the set-variant invariant. -/
theorem setOp_variants_leaf (ctx : Context) (q : SelectStmt)
    (hsl : setLeaves q = [q])
    (lress : List (List ParsedExpression)) (res : List ParsedExpression)
    (hf : List.Forall₂ (fun leaf lres => parseSelectStmt leaf ctx = .ok lres ∧
      ∀ pe ∈ lres, pe.set = none) (setLeaves q) lress)
    (h : parseSelectStmt q ctx = .ok res)
    (j : Nat) (pe : ParsedExpression) (hj : res[j]? = some pe) :
    (variantList pe).length = (setLeaves q).length ∧
    List.Forall₂ (fun lres v => lres[j]? = some v) lress (variantList pe) ∧
    (∀ lres0, lress[0]? = some lres0 →
      ∃ pv0, lres0[j]? = some pv0 ∧ pe.name = pv0.name ∧ pe.type = pv0.type) ∧
    pe.nullable = (variantList pe).any (fun v => v.nullable) := by
  rw [hsl] at hf
  cases hf with
  | cons hx hnil =>
      cases hnil
      obtain ⟨hpar, hset⟩ := hx
      rw [h] at hpar
      injection hpar with hlr
      subst hlr
      have hmem : pe ∈ res := by
        obtain ⟨hlt, he⟩ := List.getElem?_eq_some.mp hj
        exact he ▸ List.getElem_mem hlt
      have hpe : pe.set = none := hset pe hmem
      have hvl : variantList pe = [pe] := by rw [variantList, hpe]; rfl
      refine ⟨by simp [hvl, hsl], ?_, ?_, ?_⟩
      · rw [hvl]
        exact List.Forall₂.cons hj List.Forall₂.nil
      · intro lres0 h0
        simp only [List.getElem?_cons_zero, Option.some.injEq] at h0
        subst h0
        exact ⟨pe, hj, rfl, rfl⟩
      · rw [hvl]
        simp

/-- The set-variant invariant over a whole set-operation tree, by strong
induction on the tree size. -/
theorem setOp_variants_aux :
    ∀ (n : Nat) (q : SelectStmt), sizeOf q ≤ n →
    ∀ (ctx : Context) (lress : List (List ParsedExpression))
      (res : List ParsedExpression),
    List.Forall₂ (fun leaf lres => parseSelectStmt leaf ctx = .ok lres ∧
      ∀ pe ∈ lres, pe.set = none) (setLeaves q) lress →
    parseSelectStmt q ctx = .ok res →
    ∀ (j : Nat) (pe : ParsedExpression), res[j]? = some pe →
      (variantList pe).length = (setLeaves q).length ∧
      List.Forall₂ (fun lres v => lres[j]? = some v) lress (variantList pe) ∧
      (∀ lres0, lress[0]? = some lres0 →
        ∃ pv0, lres0[j]? = some pv0 ∧ pe.name = pv0.name ∧ pe.type = pv0.type) ∧
      pe.nullable = (variantList pe).any (fun v => v.nullable) := by
  intro n
  induction n with
  | zero =>
      intro q hle
      exfalso
      cases q <;> (simp at hle <;> omega)
  | succ n ih =>
      intro q hle ctx lress res hf h j pe hj
      cases q with
      | simple tl fc wc =>
          exact setOp_variants_leaf ctx (.simple tl fc wc) rfl lress res hf h j pe hj
      | values v =>
          exact setOp_variants_leaf ctx (.values v) rfl lress res hf h j pe hj
      | setOp larg rarg =>
          simp at hle
          have hszl : sizeOf larg ≤ n := by omega
          have hszr : sizeOf rarg ≤ n := by omega
          have hsl : setLeaves (SelectStmt.setOp larg rarg) =
              setLeaves larg ++ setLeaves rarg := rfl
          rw [hsl] at hf
          obtain ⟨lress1, lress2, hlr, hf1, hf2⟩ := forall₂_append_split _ _ _ hf
          subst hlr
          rw [unfold_parseSelectStmt_setOp] at h
          cases hl : parseSelectStmt larg ctx with
          | error e => rw [hl] at h; simp at h
          | ok lres =>
              rw [hl] at h
              simp only [except_bind_ok] at h
              cases hr : parseSelectStmt rarg ctx with
              | error e => rw [hr] at h; simp at h
              | ok rres =>
                  rw [hr] at h
                  simp only [except_bind_ok] at h
                  obtain ⟨hclen, hspec⟩ := combineSetOp_spec lres rres res h
                  obtain ⟨lp, rp, hjl, hjr, hpe⟩ := hspec j pe hj
                  obtain ⟨hL1, hL2, hL3, hL4⟩ :=
                    ih larg hszl ctx lress1 lres hf1 hl j lp hjl
                  obtain ⟨hR1, hR2, hR3, hR4⟩ :=
                    ih rarg hszr ctx lress2 rres hf2 hr j rp hjr
                  subst hpe
                  refine ⟨?_, ?_, ?_, ?_⟩
                  · show (variantList lp ++ variantList rp).length =
                      (setLeaves larg ++ setLeaves rarg).length
                    rw [List.length_append, List.length_append, hL1, hR1]
                  · show List.Forall₂ _ (lress1 ++ lress2)
                      (variantList lp ++ variantList rp)
                    exact List.rel_append hL2 hR2
                  · intro lres0 h0
                    have hlen1 : 0 < lress1.length := by
                      have he := List.Forall₂.length_eq hf1
                      have hne := setLeaves_ne_nil larg
                      cases hq1 : setLeaves larg with
                      | nil => exact absurd hq1 hne
                      | cons x xs => rw [hq1] at he; simp at he; omega
                    rw [List.getElem?_append_left hlen1] at h0
                    obtain ⟨pv0, hpv, hname, htype⟩ := hL3 lres0 h0
                    exact ⟨pv0, hpv, hname, htype⟩
                  · show (lp.nullable || rp.nullable) =
                      ((variantList lp ++ variantList rp).any fun v => v.nullable)
                    rw [List.any_append, hL4, hR4]

/-- Evaluation of a one-target simple SELECT with an explicit alias. -/
theorem parseSelect_single_target (ctx : Context) (nm : String)
    (hnm : (nm == "") = false) (e : Expression) (pe : ParsedExpression)
    (he : parseExpression e ctx = .ok pe)
    (hstar : e ≠ .ColumnRef .star) (htbl : ∀ t, e ≠ .ColumnRef (.tblStar t)) :
    parseSelectStmt (.simple (some [.mk (some nm) e]) none none) ctx =
      .ok [pe.withName (some nm)] := by
  rw [unfold_parseSelectStmt_simple]
  simp only [except_pure_eq, except_bind_ok]
  rw [unfold_parseTargetListAcc_other _ _ _ _ _ hstar htbl, he]
  simp only [except_bind_ok, hnm]
  simp [setKey, unfold_parseTargetListAcc_nil]

/-- `parseFromItem` only appends to the collected-table accumulator: every
entry already collected keeps its alias and columns at its position, and its
nullable flag can only go from false to true (a nested RIGHT/FULL join marks
the whole left side). -/
theorem parseFromItem_preserves :
    ∀ (n : Nat) (fromItem : FromItem), sizeOf fromItem ≤ n →
    ∀ (pts : List ParsedTable) (ctx : Context) (nb : Bool) (pts' : List ParsedTable),
    parseFromItem fromItem pts ctx nb = .ok pts' →
    ∀ (i : Nat) (pt : ParsedTable), pts[i]? = some pt →
    ∃ b, pts'[i]? = some (⟨pt.alias_, pt.columns, b⟩ : ParsedTable) ∧
      (pt.nullable = true → b = true) := by
  intro n
  induction n with
  | zero =>
      intro fromItem hle
      exfalso
      cases fromItem <;> (simp at hle <;> omega)
  | succ n ih =>
      intro fromItem hle pts ctx nb pts' h i pt hi
      have hlen : i < pts.length := (List.getElem?_eq_some.mp hi).1
      cases fromItem with
      | RangeVar rv =>
          rw [unfold_parseFromItem_rv] at h
          simp only [parseRangeVar] at h
          cases hg : (getKey ctx.tablesBySchema (rv.schemaname.getD ctx.defaultSchema)).bind
              (fun m => getKey m rv.relname) with
          | none => rw [hg] at h; simp at h
          | some t =>
              rw [hg] at h
              simp only [except_pure_eq, Except.ok.injEq] at h
              subst h
              refine ⟨pt.nullable, ?_, fun hb => hb⟩
              rw [List.getElem?_append_left hlen, hi]
      | RangeSubselect al sub =>
          rw [unfold_parseFromItem_sub, unfold_parseRangeSubselect] at h
          cases hp : parseSelectStmt sub ctx with
          | error e => rw [hp] at h; simp at h
          | ok rts =>
              rw [hp] at h
              simp only [except_bind_ok, except_pure_eq, Except.ok.injEq] at h
              subst h
              refine ⟨pt.nullable, ?_, fun hb => hb⟩
              rw [List.getElem?_append_left hlen, hi]
      | JoinExpr jt larg rarg =>
          rw [unfold_parseFromItem_join, unfold_parseJoinExpr] at h
          have hj := joinType_sizeOf_pos jt
          simp at hle
          have hszl : sizeOf larg ≤ n := by omega
          have hszr : sizeOf rarg ≤ n := by omega
          cases h1 : parseFromItem larg pts ctx false with
          | error e => rw [h1] at h; simp at h
          | ok pts1 =>
              rw [h1] at h
              simp only [except_bind_ok] at h
              obtain ⟨b1, hb1, hm1⟩ := ih larg hszl pts ctx false pts1 h1 i pt hi
              by_cases hcond : (jt == .JOIN_RIGHT || jt == .JOIN_FULL) = true
              · rw [if_pos hcond] at h
                have hmap : (pts1.map
                    (fun q => (⟨q.alias_, q.columns, true⟩ : ParsedTable)))[i]? =
                      some (⟨pt.alias_, pt.columns, true⟩ : ParsedTable) := by
                  rw [List.getElem?_map, hb1]; rfl
                obtain ⟨b2, hb2, hm2⟩ := ih rarg hszr _ ctx _ pts' h i _ hmap
                exact ⟨b2, hb2, fun _ => hm2 rfl⟩
              · rw [if_neg hcond] at h
                obtain ⟨b2, hb2, hm2⟩ := ih rarg hszr pts1 ctx _ pts' h i _ hb1
                exact ⟨b2, hb2, fun hpn => hm2 (hm1 hpn)⟩

/-- C1: join nullability.  Over the collected-table list of a FROM clause:
for a LEFT or FULL join whose right-hand side is a base table or a subselect,
the right-hand table is appended with nullable = true regardless of its
base-schema flag (first conjunct); for a RIGHT or FULL join, every table
already collected on the left side reappears in the join's result at the same
position, same alias and columns, with nullable = true (second conjunct); a
table entering scope with nullable = true is installed with every column
forced nullable (third conjunct); and each top-level FROM item is parsed into
a fresh accumulator, so a join never touches tables of other top-level items
(fourth conjunct). -/
theorem claim_C1 :
    (∀ (jt : JoinType) (larg rarg : FromItem) (pts0 : List ParsedTable)
        (ctx : Context) (nb : Bool) (ptsF : List ParsedTable),
      (jt = .JOIN_LEFT ∨ jt = .JOIN_FULL) →
      ((∃ rv, rarg = .RangeVar rv) ∨ (∃ al sub, rarg = .RangeSubselect al sub)) →
      parseFromItem (.JoinExpr jt larg rarg) pts0 ctx nb = .ok ptsF →
      ∃ pref last_, ptsF = pref ++ [last_] ∧ last_.nullable = true) ∧
    (∀ (jt : JoinType) (larg rarg : FromItem) (pts0 : List ParsedTable)
        (ctx : Context) (nb : Bool) (pts1 ptsF : List ParsedTable),
      (jt = .JOIN_RIGHT ∨ jt = .JOIN_FULL) →
      parseFromItem larg pts0 ctx false = .ok pts1 →
      parseFromItem (.JoinExpr jt larg rarg) pts0 ctx nb = .ok ptsF →
      ∀ (i : Nat) (pt : ParsedTable), pts1[i]? = some pt →
        ptsF[i]? = some (⟨pt.alias_, pt.columns, true⟩ : ParsedTable)) ∧
    (∀ (pts : List ParsedTable) (init : Tables) (pt : ParsedTable),
      pt.nullable = true →
      getKey (scopeTables (pts ++ [pt]) init) pt.alias_ =
        some (some (⟨pt.columns.map (fun p => (p.1, (⟨true, p.2.type⟩ : Column))),
          true⟩ : Table))) ∧
    (∀ (item : FromItem) (rest : List FromItem) (ctx : Context),
      parseFromItems (item :: rest) ctx = (do
        let pts ← parseFromItem item [] ctx false
        let more ← parseFromItems rest ctx
        pure (pts ++ more))) := by
  refine ⟨?_, ?_, ?_, fun item rest ctx => unfold_parseFromItems_cons item rest ctx⟩
  · intro jt larg rarg pts0 ctx nb ptsF hjt hshape h
    rw [unfold_parseFromItem_join, unfold_parseJoinExpr] at h
    cases h1 : parseFromItem larg pts0 ctx false with
    | error e => rw [h1] at h; simp at h
    | ok pts1 =>
        rw [h1] at h
        simp only [except_bind_ok] at h
        have hnb : (jt == .JOIN_LEFT || jt == .JOIN_FULL) = true := by
          rcases hjt with h' | h' <;> subst h' <;> rfl
        rcases hshape with ⟨rv, hr⟩ | ⟨al, sub, hr⟩ <;> subst hr
        · rw [unfold_parseFromItem_rv] at h
          simp only [parseRangeVar] at h
          cases hg : (getKey ctx.tablesBySchema (rv.schemaname.getD ctx.defaultSchema)).bind
              (fun m => getKey m rv.relname) with
          | none => rw [hg] at h; simp at h
          | some t =>
              rw [hg] at h
              simp only [except_pure_eq, Except.ok.injEq] at h
              refine ⟨_, _, h.symm, ?_⟩
              show (jt == .JOIN_LEFT || jt == .JOIN_FULL) = true
              exact hnb
        · rw [unfold_parseFromItem_sub, unfold_parseRangeSubselect] at h
          cases hp : parseSelectStmt sub ctx with
          | error e => rw [hp] at h; simp at h
          | ok rts =>
              rw [hp] at h
              simp only [except_bind_ok, except_pure_eq, Except.ok.injEq] at h
              refine ⟨_, _, h.symm, ?_⟩
              show (jt == .JOIN_LEFT || jt == .JOIN_FULL) = true
              exact hnb
  · intro jt larg rarg pts0 ctx nb pts1 ptsF hjt h1 h
    rw [unfold_parseFromItem_join, unfold_parseJoinExpr, h1] at h
    simp only [except_bind_ok] at h
    have hcond : (jt == .JOIN_RIGHT || jt == .JOIN_FULL) = true := by
      rcases hjt with h' | h' <;> subst h' <;> rfl
    rw [if_pos hcond] at h
    intro i pt hi
    have hmap : (pts1.map
        (fun q => (⟨q.alias_, q.columns, true⟩ : ParsedTable)))[i]? =
          some (⟨pt.alias_, pt.columns, true⟩ : ParsedTable) := by
      rw [List.getElem?_map, hi]; rfl
    obtain ⟨b2, hb2, hm2⟩ :=
      parseFromItem_preserves (sizeOf rarg) rarg le_rfl _ ctx _ ptsF h i _ hmap
    have hbt : b2 = true := hm2 rfl
    subst hbt
    exact hb2
  · intro pts init pt hpn
    rw [scopeTables, List.foldl_append]
    simp only [List.foldl_cons, List.foldl_nil]
    rw [getKey_setKey_self]
    rw [forceNullifyTable, if_pos hpn, hpn]

/-- C1 witness: `a FULL JOIN b` over a two-table catalog — the left table
enters the collected list at index 0 with nullable forced to true. -/
theorem claim_C1_witness :
    [(⟨"a", [("x", ⟨false, "int4"⟩)], true⟩ : ParsedTable),
      ⟨"b", [("y", ⟨false, "text"⟩)], true⟩][0]? =
      some (⟨"a", [("x", ⟨false, "int4"⟩)], true⟩ : ParsedTable) := by
  have h1 : parseFromItem (.RangeVar ⟨none, "a", none⟩) []
      ⟨[], "public", "string",
        [("public", [("a", ⟨[("x", ⟨false, "int4"⟩)], false⟩),
          ("b", ⟨[("y", ⟨false, "text"⟩)], false⟩)])]⟩ false =
      .ok [⟨"a", [("x", ⟨false, "int4"⟩)], false⟩] := by
    rw [unfold_parseFromItem_rv]; rfl
  have h2 : parseFromItem (.JoinExpr .JOIN_FULL (.RangeVar ⟨none, "a", none⟩)
      (.RangeVar ⟨none, "b", none⟩)) []
      ⟨[], "public", "string",
        [("public", [("a", ⟨[("x", ⟨false, "int4"⟩)], false⟩),
          ("b", ⟨[("y", ⟨false, "text"⟩)], false⟩)])]⟩ false =
      .ok [⟨"a", [("x", ⟨false, "int4"⟩)], true⟩,
        ⟨"b", [("y", ⟨false, "text"⟩)], true⟩] := by
    rw [unfold_parseFromItem_join, unfold_parseJoinExpr, h1]
    simp only [except_bind_ok]
    rw [unfold_parseFromItem_rv]
    rfl
  exact claim_C1.2.1 .JOIN_FULL (.RangeVar ⟨none, "a", none⟩)
    (.RangeVar ⟨none, "b", none⟩) []
    ⟨[], "public", "string",
      [("public", [("a", ⟨[("x", ⟨false, "int4"⟩)], false⟩),
        ("b", ⟨[("y", ⟨false, "text"⟩)], false⟩)])]⟩ false
    [⟨"a", [("x", ⟨false, "int4"⟩)], false⟩]
    [⟨"a", [("x", ⟨false, "int4"⟩)], true⟩, ⟨"b", [("y", ⟨false, "text"⟩)], true⟩]
    (Or.inr rfl) h1 h2 0 ⟨"a", [("x", ⟨false, "int4"⟩)], false⟩ rfl

/-- C2 counterexample: two operand queries, three set variants.  In
`(SELECT (SELECT 1 a UNION SELECT 2 a) x) UNION (SELECT 3 x)` the outer set
operation has n = 2 operands, but the scalar subquery (EXPR_SUBLINK) spreads
the inner union's column — `set` variants included — into the left operand's
result column, so flattening yields 3 variants, not 2. -/
theorem claim_C2_counterexample :
    (setLeaves (SelectStmt.setOp
      (.simple (some [.mk (some "x") (.SubLink .EXPR_SUBLINK
        (.setOp (.simple (some [.mk (some "a") (.A_Const (.Integer 1))]) none none)
          (.simple (some [.mk (some "a") (.A_Const (.Integer 2))]) none none)))])
        none none)
      (.simple (some [.mk (some "x") (.A_Const (.Integer 3))]) none none))).length = 2 ∧
    parseSelectStmt (SelectStmt.setOp
      (.simple (some [.mk (some "x") (.SubLink .EXPR_SUBLINK
        (.setOp (.simple (some [.mk (some "a") (.A_Const (.Integer 1))]) none none)
          (.simple (some [.mk (some "a") (.A_Const (.Integer 2))]) none none)))])
        none none)
      (.simple (some [.mk (some "x") (.A_Const (.Integer 3))]) none none))
      ⟨[], "public", "string", []⟩ =
      .ok [⟨none, some "x", true,
        some [⟨some "1", some "a", false, none, "int4", none⟩,
          ⟨some "2", some "a", false, none, "int4", none⟩,
          ⟨some "3", some "x", false, none, "int4", none⟩], "int4", none⟩] ∧
    (some [(⟨some "1", some "a", false, none, "int4", none⟩ : ParsedExpression),
      ⟨some "2", some "a", false, none, "int4", none⟩,
      ⟨some "3", some "x", false, none, "int4", none⟩] :
        Option (List ParsedExpression)).map List.length = some 3 := by
  have h1 : parseSelectStmt (.simple (some [.mk (some "a")
      (.A_Const (.Integer 1))]) none none) ⟨[], "public", "string", []⟩ =
      .ok [⟨some "1", some "a", false, none, "int4", none⟩] :=
    parseSelect_single_target _ "a" rfl _ ⟨some "1", none, false, none, "int4", none⟩
      (by rw [unfold_pe_aconst]; rfl) (by simp) (by simp)
  have h2 : parseSelectStmt (.simple (some [.mk (some "a")
      (.A_Const (.Integer 2))]) none none) ⟨[], "public", "string", []⟩ =
      .ok [⟨some "2", some "a", false, none, "int4", none⟩] :=
    parseSelect_single_target _ "a" rfl _ ⟨some "2", none, false, none, "int4", none⟩
      (by rw [unfold_pe_aconst]; rfl) (by simp) (by simp)
  have hInner : parseSelectStmt (.setOp
      (.simple (some [.mk (some "a") (.A_Const (.Integer 1))]) none none)
      (.simple (some [.mk (some "a") (.A_Const (.Integer 2))]) none none))
      ⟨[], "public", "string", []⟩ =
      .ok [⟨none, some "a", false,
        some [⟨some "1", some "a", false, none, "int4", none⟩,
          ⟨some "2", some "a", false, none, "int4", none⟩], "int4", none⟩] := by
    rw [unfold_parseSelectStmt_setOp, h1]
    simp only [except_bind_ok]
    rw [h2]
    simp only [except_bind_ok]
    rfl
  have hSub : parseExpression (.SubLink .EXPR_SUBLINK (.setOp
      (.simple (some [.mk (some "a") (.A_Const (.Integer 1))]) none none)
      (.simple (some [.mk (some "a") (.A_Const (.Integer 2))]) none none)))
      ⟨[], "public", "string", []⟩ =
      .ok ⟨none, some "a", true,
        some [⟨some "1", some "a", false, none, "int4", none⟩,
          ⟨some "2", some "a", false, none, "int4", none⟩], "int4", none⟩ := by
    rw [unfold_pe_subLink, unfold_parseSubLink, hInner]
    rfl
  have hL : parseSelectStmt (.simple (some [.mk (some "x") (.SubLink .EXPR_SUBLINK
      (.setOp (.simple (some [.mk (some "a") (.A_Const (.Integer 1))]) none none)
        (.simple (some [.mk (some "a") (.A_Const (.Integer 2))]) none none)))])
      none none) ⟨[], "public", "string", []⟩ =
      .ok [⟨none, some "x", true,
        some [⟨some "1", some "a", false, none, "int4", none⟩,
          ⟨some "2", some "a", false, none, "int4", none⟩], "int4", none⟩] :=
    parseSelect_single_target _ "x" rfl _
      ⟨none, some "a", true,
        some [⟨some "1", some "a", false, none, "int4", none⟩,
          ⟨some "2", some "a", false, none, "int4", none⟩], "int4", none⟩
      hSub (by simp) (by simp)
  have hR : parseSelectStmt (.simple (some [.mk (some "x")
      (.A_Const (.Integer 3))]) none none) ⟨[], "public", "string", []⟩ =
      .ok [⟨some "3", some "x", false, none, "int4", none⟩] :=
    parseSelect_single_target _ "x" rfl _ ⟨some "3", none, false, none, "int4", none⟩
      (by rw [unfold_pe_aconst]; rfl) (by simp) (by simp)
  refine ⟨rfl, ?_, rfl⟩
  rw [unfold_parseSelectStmt_setOp, hL]
  simp only [except_bind_ok]
  rw [hR]
  simp only [except_bind_ok]
  rfl

/-- C2 (amended): for a set-operation tree whose operand leaves each analyze
to columns carrying no set variants of their own (the condition the original
claim omits — a scalar subquery over a set operation injects extra variants),
every result column's flattened variant list has exactly one entry per
operand leaf, in source order (one `Forall₂` pairing per leaf result, at the
column's index); the column's name and type come from the leftmost leaf; and
the column's nullable flag is the OR of the variants' nullable flags. -/
theorem claim_C2_amended (ctx : Context) (q : SelectStmt)
    (lress : List (List ParsedExpression)) (res : List ParsedExpression)
    (hleaves : List.Forall₂ (fun leaf lres => parseSelectStmt leaf ctx = .ok lres ∧
      ∀ pe ∈ lres, pe.set = none) (setLeaves q) lress)
    (hres : parseSelectStmt q ctx = .ok res) :
    ∀ (j : Nat) (pe : ParsedExpression), res[j]? = some pe →
      (variantList pe).length = (setLeaves q).length ∧
      List.Forall₂ (fun lres v => lres[j]? = some v) lress (variantList pe) ∧
      (∀ lres0, lress[0]? = some lres0 →
        ∃ pv0, lres0[j]? = some pv0 ∧ pe.name = pv0.name ∧ pe.type = pv0.type) ∧
      pe.nullable = (variantList pe).any (fun v => v.nullable) :=
  setOp_variants_aux (sizeOf q) q le_rfl ctx lress res hleaves hres

/-- C2 witness: `SELECT 1 a UNION SELECT 2 a` — the result column's variant
list has exactly the two operands' columns, in order, and its nullability is
the OR over the variants. -/
theorem claim_C2_amended_witness :
    (variantList ⟨none, some "a", false,
        some [⟨some "1", some "a", false, none, "int4", none⟩,
          ⟨some "2", some "a", false, none, "int4", none⟩], "int4", none⟩).length =
      (setLeaves (SelectStmt.setOp
        (.simple (some [.mk (some "a") (.A_Const (.Integer 1))]) none none)
        (.simple (some [.mk (some "a") (.A_Const (.Integer 2))]) none none))).length ∧
    List.Forall₂ (fun lres v => lres[0]? = some v)
      [[(⟨some "1", some "a", false, none, "int4", none⟩ : ParsedExpression)],
        [⟨some "2", some "a", false, none, "int4", none⟩]]
      (variantList ⟨none, some "a", false,
        some [⟨some "1", some "a", false, none, "int4", none⟩,
          ⟨some "2", some "a", false, none, "int4", none⟩], "int4", none⟩) := by
  have h1 : parseSelectStmt (.simple (some [.mk (some "a")
      (.A_Const (.Integer 1))]) none none) ⟨[], "public", "string", []⟩ =
      .ok [⟨some "1", some "a", false, none, "int4", none⟩] :=
    parseSelect_single_target _ "a" rfl _ ⟨some "1", none, false, none, "int4", none⟩
      (by rw [unfold_pe_aconst]; rfl) (by simp) (by simp)
  have h2 : parseSelectStmt (.simple (some [.mk (some "a")
      (.A_Const (.Integer 2))]) none none) ⟨[], "public", "string", []⟩ =
      .ok [⟨some "2", some "a", false, none, "int4", none⟩] :=
    parseSelect_single_target _ "a" rfl _ ⟨some "2", none, false, none, "int4", none⟩
      (by rw [unfold_pe_aconst]; rfl) (by simp) (by simp)
  have hq : parseSelectStmt (.setOp
      (.simple (some [.mk (some "a") (.A_Const (.Integer 1))]) none none)
      (.simple (some [.mk (some "a") (.A_Const (.Integer 2))]) none none))
      ⟨[], "public", "string", []⟩ =
      .ok [⟨none, some "a", false,
        some [⟨some "1", some "a", false, none, "int4", none⟩,
          ⟨some "2", some "a", false, none, "int4", none⟩], "int4", none⟩] := by
    rw [unfold_parseSelectStmt_setOp, h1]
    simp only [except_bind_ok]
    rw [h2]
    simp only [except_bind_ok]
    rfl
  have hf : List.Forall₂ (fun leaf lres =>
      parseSelectStmt leaf ⟨[], "public", "string", []⟩ = .ok lres ∧
      ∀ pe ∈ lres, pe.set = none)
      (setLeaves (SelectStmt.setOp
        (.simple (some [.mk (some "a") (.A_Const (.Integer 1))]) none none)
        (.simple (some [.mk (some "a") (.A_Const (.Integer 2))]) none none)))
      [[⟨some "1", some "a", false, none, "int4", none⟩],
        [⟨some "2", some "a", false, none, "int4", none⟩]] := by
    refine List.Forall₂.cons ⟨h1, ?_⟩ (List.Forall₂.cons ⟨h2, ?_⟩ List.Forall₂.nil)
    · intro pe hpe
      rw [List.mem_singleton] at hpe
      subst hpe
      rfl
    · intro pe hpe
      rw [List.mem_singleton] at hpe
      subst hpe
      rfl
  have h := claim_C2_amended ⟨[], "public", "string", []⟩ _ _ _ hf hq 0
    ⟨none, some "a", false,
      some [⟨some "1", some "a", false, none, "int4", none⟩,
        ⟨some "2", some "a", false, none, "int4", none⟩], "int4", none⟩ rfl
  exact ⟨h.1, h.2.1⟩

/-- C9 witness: an empty FROM clause over a fully defined context returns the
context itself — the catalog entry for public is exactly the caller's. -/
theorem claim_C9_witness :
    (Context.mk [("t", some ⟨[], false⟩)] "public" "string"
        [("public", [])]).tablesBySchema = ([("public", [])] : TablesBySchema) :=
  (claim_C9.1 []
    (Context.mk [("t", some ⟨[], false⟩)] "public" "string" [("public", [])])
    (Context.mk [("t", some ⟨[], false⟩)] "public" "string" [("public", [])])
    (by rw [unfold_parseFromClause, unfold_parseFromItems_nil]; rfl)).1

end PgMagic
